import Mathlib

/-!
Verification of creationix/git-sha1: a pure-JS incremental SHA-1 digest engine
(`createJs` in `src/git-sha1.ts`).

The engine state (the closure variables of `createJs`) is embedded as the
structure `EngineState`.  JavaScript 32-bit bitwise semantics are embedded
over `Nat`: a `Uint32Array` element is a `Nat` below `2^32`; a JS bitwise
operator first coerces its operands with `ToInt32`/`ToUint32`, whose effect
on the 32-bit pattern is reduction modulo `2^32`, so each JS expression is
rendered with an explicit `% 4294967296` where the 32-bit truncation is
observable.  JS `number` addition on the int32-range summands appearing in
`processBlock` is exact in double precision, and every consumer of those
sums coerces through `ToInt32`, so the sums are reduced modulo `2^32` at the
point of storage.  `totalLength` is carried as an exact `Nat` (exact in JS
doubles for all lengths below `2^53`).
-/

namespace GitSha1

/-- The closure state of `createJs`: running hash words `h0`..`h4`, the
80-word block buffer, the write cursor (`offset`, `shift`), and the running
bit count `totalLength`.  The extra field `blocks` is a ghost counter of
`processBlock` invocations, used only to state claims about how many block
passes have run; no source behaviour reads it. -/
structure EngineState where
  h0 : Nat
  h1 : Nat
  h2 : Nat
  h3 : Nat
  h4 : Nat
  block : List Nat
  offset : Nat
  shift : Nat
  totalLength : Nat
  blocks : Nat
deriving Repr, DecidableEq

/-- Initial engine state: the five SHA-1 chaining constants, a fresh zeroed
80-word buffer (`new Uint32Array(80)`), cursor at word 0 / shift 24, and a
zero bit count. -/
def initial : EngineState :=
  { h0 := 0x67452301
    h1 := 0xEFCDAB89
    h2 := 0x98BADCFE
    h3 := 0x10325476
    h4 := 0xC3D2E1F0
    block := List.replicate 80 0
    offset := 0
    shift := 24
    totalLength := 0
    blocks := 0 }

/-- Message-schedule expansion loop of `processBlock`
(`for (i = 16; i < 80; i++) { w = b[i-3]^b[i-8]^b[i-14]^b[i-16]; b[i] = (w << 1) | (w >>> 31) }`),
written with explicit fuel: `expandAux n i` performs the iterations
`i, i+1, ..., i+n-1`. -/
def expandAux : Nat → Nat → List Nat → List Nat
  | 0, _, blk => blk
  | n + 1, i, blk =>
    let w := blk.getD (i - 3) 0 ^^^ blk.getD (i - 8) 0 ^^^ blk.getD (i - 14) 0 ^^^ blk.getD (i - 16) 0
    expandAux n (i + 1) (blk.set i (((w <<< 1) % 4294967296) ||| (w >>> 31)))

/-- Round function `f` of the main loop of `processBlock`, selected by the
round index exactly as the source's `if`/`else if` chain. -/
def roundF (i b c d : Nat) : Nat :=
  if i < 20 then d ^^^ (b &&& (c ^^^ d))
  else if i < 40 then b ^^^ c ^^^ d
  else if i < 60 then (b &&& c) ||| (d &&& (b ||| c))
  else b ^^^ c ^^^ d

/-- Round constant `k` of the main loop of `processBlock`. -/
def roundK (i : Nat) : Nat :=
  if i < 20 then 0x5A827999
  else if i < 40 then 0x6ED9EBA1
  else if i < 60 then 0x8F1BBCDC
  else 0xCA62C1D6

/-- Main loop of `processBlock`
(`temp = (a << 5 | a >>> 27) + f + e + k + (block[i] | 0); e = d; d = c; c = (b << 30 | b >>> 2); b = a; a = temp`),
with fuel: `roundsAux n i` performs rounds `i, ..., i+n-1` on the working
tuple `(a, b, c, d, e)`. -/
def roundsAux (blk : List Nat) : Nat → Nat → Nat × Nat × Nat × Nat × Nat → Nat × Nat × Nat × Nat × Nat
  | 0, _, st => st
  | n + 1, i, st =>
    let a := st.1
    let b := st.2.1
    let c := st.2.2.1
    let d := st.2.2.2.1
    let e := st.2.2.2.2
    let f := roundF i b c d
    let k := roundK i
    let temp := ((((a <<< 5) % 4294967296) ||| (a >>> 27)) + f + e + k + blk.getD i 0) % 4294967296
    roundsAux blk n (i + 1) (temp, a, ((b <<< 30) % 4294967296) ||| (b >>> 2), c, d)

/-- Buffer-reset loop at the end of `processBlock`
(`for (i = 0; i < 16; i++) block[i] = 0`), with fuel. -/
def zeroHeadAux : Nat → Nat → List Nat → List Nat
  | 0, _, blk => blk
  | n + 1, i, blk => zeroHeadAux n (i + 1) (blk.set i 0)

/-- `processBlock` of the source: expand the schedule, run the 80 rounds,
add the working variables into the chaining words modulo `2^32`
(`h0 = (h0 + a) | 0` on a `Uint32Array`-patterned value), zero the 16 data
words and reset the cursor word offset to 0 (the source leaves `shift`
untouched here). -/
def processBlock (s : EngineState) : EngineState :=
  let blk := expandAux 64 16 s.block
  let r := roundsAux blk 80 0 (s.h0, s.h1, s.h2, s.h3, s.h4)
  { s with
    h0 := (s.h0 + r.1) % 4294967296
    h1 := (s.h1 + r.2.1) % 4294967296
    h2 := (s.h2 + r.2.2.1) % 4294967296
    h3 := (s.h3 + r.2.2.2.1) % 4294967296
    h4 := (s.h4 + r.2.2.2.2) % 4294967296
    block := zeroHeadAux 16 0 blk
    offset := 0
    blocks := s.blocks + 1 }

/-- `write(byte)` of the source: or `(byte & 0xff) << shift` into the word
at the cursor, advance the cursor (`if (shift) shift -= 8 else { offset++; shift = 24 }`),
and when the cursor reaches word 16 run `processBlock`. -/
def write (byte : Nat) (s : EngineState) : EngineState :=
  let s1 := { s with
    block := s.block.set s.offset (s.block.getD s.offset 0 ||| ((byte &&& 0xff) <<< s.shift)) }
  let s2 := if s1.shift ≠ 0 then { s1 with shift := s1.shift - 8 }
            else { s1 with offset := s1.offset + 1, shift := 24 }
  if s2.offset = 16 then processBlock s2 else s2

/-- Byte-writing loop shared by `update` and `updateString`. -/
def writeList (l : List Nat) (s : EngineState) : EngineState :=
  l.foldl (fun t b => write b t) s

/-- `update(chunk)` of the source for an array chunk:
`totalLength += length * 8` then `write` each element. -/
def update (chunk : List Nat) (s : EngineState) : EngineState :=
  writeList chunk { s with totalLength := s.totalLength + chunk.length * 8 }

/-- `updateString(s)` of the source: `totalLength += length * 8` then
`write(s.charCodeAt(i))` for each UTF-16 code unit, given here as the list
of code-unit values. -/
def updateString (cus : List Nat) (s : EngineState) : EngineState :=
  writeList cus { s with totalLength := s.totalLength + cus.length * 8 }

/-- First half of `digest()`: `write(0x80)`, then
`if (offset > 14 || (offset === 14 && shift < 24)) processBlock()`, then
force the cursor to `offset = 14`, `shift = 24`. -/
def padPart (s : EngineState) : EngineState :=
  let s1 := write 0x80 s
  let s2 := if 14 < s1.offset ∨ (s1.offset = 14 ∧ s1.shift < 24) then processBlock s1 else s1
  { s2 with offset := 14, shift := 24 }

/-- Second half of `digest()`: the eight length-field writes.  The first two
bytes are hard-coded `0x00` by the source; the next two are the JS
expressions `totalLength > 0xffffffffff ? totalLength / 0x10000000000 : 0`
and `totalLength > 0xffffffff ? totalLength / 0x100000000 : 0` (float
division truncated toward zero by `ToInt32` inside `write`, which is `Nat`
division here); the last four are `totalLength >> s` for
`s = 24, 16, 8, 0`, i.e. shifts of the `ToInt32` pattern
`totalLength % 2^32`.  `write` never changes `totalLength`, so the source's
live reads of `totalLength` are rendered as reads from `s`. -/
def lenWrites (s : EngineState) : EngineState :=
  let s1 := write 0x00 s
  let s2 := write 0x00 s1
  let s3 := write (if 0xffffffffff < s.totalLength then s.totalLength / 0x10000000000 else 0) s2
  let s4 := write (if 0xffffffff < s.totalLength then s.totalLength / 0x100000000 else 0) s3
  let s5 := write ((s.totalLength % 4294967296) >>> 24) s4
  let s6 := write ((s.totalLength % 4294967296) >>> 16) s5
  let s7 := write ((s.totalLength % 4294967296) >>> 8) s6
  write ((s.totalLength % 4294967296) >>> 0) s7

/-- The full state transformation of `digest()`: padding, then the length
field (whose final byte completes word 15 and triggers the last
`processBlock` inside `write`). -/
def digestState (s : EngineState) : EngineState :=
  lenWrites (padPart s)

/-- One hex digit as produced by `((word >> i) & 0xf).toString(16)`:
lowercase. -/
def hexChar (n : Nat) : Char :=
  if n < 10 then Char.ofNat (48 + n) else Char.ofNat (87 + n)

/-- The nibble loop of `toHex` (`for (i = 28; i >= 0; i -= 4)`), with fuel:
`toHexAux 8 w` emits the nibbles at shifts `28, 24, ..., 0`.  A JS signed
shift of an int32 pattern followed by `& 0xf` extracts the same nibble as
the unsigned shift of the `Nat` pattern. -/
def toHexAux : Nat → Nat → List Char
  | 0, _ => []
  | n + 1, w => hexChar ((w >>> (4 * n)) &&& 0xf) :: toHexAux n w

/-- `toHex(word)` of the source: eight lowercase hex digits, most
significant nibble first. -/
def toHex (word : Nat) : String :=
  ⟨toHexAux 8 word⟩

/-- The string returned by `digest()`: run the state transformation, then
concatenate `toHex(h0)..toHex(h4)`. -/
def digestOutput (s : EngineState) : String :=
  let t := digestState s
  toHex t.h0 ++ toHex t.h1 ++ toHex t.h2 ++ toHex t.h3 ++ toHex t.h4

/-- The UTF-16 code units of a string as seen by `charCodeAt`; for the
ASCII strings used in the tests this is just the scalar value of each
character. -/
def jsCodeUnits (s : String) : List Nat :=
  s.data.map Char.toNat

/-- The one-shot form `sha1(buffer)` for a defined string argument:
`create(true).update(buffer); digest()`.  The module-level shared buffer is
a fresh zeroed `Uint32Array(80)` at load time, so the one-shot session
starts from `initial`. -/
def sha1 (buffer : String) : String :=
  digestOutput (updateString (jsCodeUnits buffer) initial)

/-- A sequence of `update` calls on one engine instance. -/
def applyChunks (chunks : List (List Nat)) (s : EngineState) : EngineState :=
  chunks.foldl (fun t c => update c t) s

/-! ## Structural lemmas about `write` and `processBlock` -/

/-- The block buffer after the `block[offset] |= (byte & 0xff) << shift`
line of `write`. -/
def wrote (b : Nat) (s : EngineState) : List Nat :=
  s.block.set s.offset (s.block.getD s.offset 0 ||| ((b &&& 0xff) <<< s.shift))

theorem write_shift_pos (b : Nat) (s : EngineState) (h : s.shift ≠ 0) (h2 : s.offset ≠ 16) :
    write b s = { s with block := wrote b s, shift := s.shift - 8 } := by
  unfold write wrote
  dsimp only
  rw [if_pos h]
  dsimp only
  rw [if_neg h2]

theorem write_shift_pos_full (b : Nat) (s : EngineState) (h : s.shift ≠ 0) (h2 : s.offset = 16) :
    write b s = processBlock { s with block := wrote b s, shift := s.shift - 8 } := by
  unfold write wrote
  dsimp only
  rw [if_pos h]
  dsimp only
  rw [if_pos h2]

theorem write_shift_zero (b : Nat) (s : EngineState) (h : s.shift = 0) (h2 : s.offset + 1 ≠ 16) :
    write b s = { s with block := wrote b s, offset := s.offset + 1, shift := 24 } := by
  unfold write wrote
  dsimp only
  rw [h]
  rw [if_neg (show ¬((0:Nat) ≠ 0) by simp)]
  dsimp only
  rw [if_neg h2]

theorem write_shift_zero_full (b : Nat) (s : EngineState) (h : s.shift = 0) (h2 : s.offset + 1 = 16) :
    write b s = processBlock { s with block := wrote b s, offset := s.offset + 1, shift := 24 } := by
  unfold write wrote
  dsimp only
  rw [h]
  rw [if_neg (show ¬((0:Nat) ≠ 0) by simp)]
  dsimp only
  rw [if_pos h2]

theorem engine_eta (s : EngineState) :
    s = ⟨s.h0, s.h1, s.h2, s.h3, s.h4, s.block, s.offset, s.shift, s.totalLength, s.blocks⟩ :=
  rfl

/-- `processBlock` on an explicit state literal, as an equation usable for
rewriting without unfolding the 80-round computation. -/
theorem processBlock_eq (a1 a2 a3 a4 a5 : Nat) (bl : List Nat) (off sh tl bs : Nat) :
    processBlock ⟨a1, a2, a3, a4, a5, bl, off, sh, tl, bs⟩ =
      ⟨(a1 + (roundsAux (expandAux 64 16 bl) 80 0 (a1, a2, a3, a4, a5)).1) % 4294967296,
       (a2 + (roundsAux (expandAux 64 16 bl) 80 0 (a1, a2, a3, a4, a5)).2.1) % 4294967296,
       (a3 + (roundsAux (expandAux 64 16 bl) 80 0 (a1, a2, a3, a4, a5)).2.2.1) % 4294967296,
       (a4 + (roundsAux (expandAux 64 16 bl) 80 0 (a1, a2, a3, a4, a5)).2.2.2.1) % 4294967296,
       (a5 + (roundsAux (expandAux 64 16 bl) 80 0 (a1, a2, a3, a4, a5)).2.2.2.2) % 4294967296,
       zeroHeadAux 16 0 (expandAux 64 16 bl), 0, sh, tl, bs + 1⟩ := by
  unfold processBlock
  dsimp only

theorem processBlock_totalLength (s : EngineState) :
    (processBlock s).totalLength = s.totalLength := by
  rw [engine_eta s, processBlock_eq]

theorem processBlock_offset (s : EngineState) : (processBlock s).offset = 0 := by
  rw [engine_eta s, processBlock_eq]

theorem processBlock_shift (s : EngineState) : (processBlock s).shift = s.shift := by
  rw [engine_eta s, processBlock_eq]

theorem processBlock_blocks (s : EngineState) : (processBlock s).blocks = s.blocks + 1 := by
  rw [engine_eta s, processBlock_eq]

theorem processBlock_block (s : EngineState) :
    (processBlock s).block = zeroHeadAux 16 0 (expandAux 64 16 s.block) := by
  rw [engine_eta s, processBlock_eq]

/-- Overwrite the `totalLength` field; used to state that the byte-writing
path never reads nor writes the bit counter. -/
def setTL (s : EngineState) (x : Nat) : EngineState :=
  { s with totalLength := x }

theorem setTL_totalLength (s : EngineState) (x : Nat) : (setTL s x).totalLength = x := rfl

theorem setTL_setTL (s : EngineState) (x y : Nat) : setTL (setTL s x) y = setTL s y := rfl

theorem setTL_self (s : EngineState) : setTL s s.totalLength = s := rfl

theorem update_eq_writeList (chunk : List Nat) (s : EngineState) :
    update chunk s = writeList chunk (setTL s (s.totalLength + chunk.length * 8)) := rfl

theorem updateString_eq_writeList (cus : List Nat) (s : EngineState) :
    updateString cus s = writeList cus (setTL s (s.totalLength + cus.length * 8)) := rfl

theorem wrote_setTL (b : Nat) (s : EngineState) (x : Nat) :
    wrote b (setTL s x) = wrote b s := by
  unfold wrote setTL
  dsimp only

theorem processBlock_setTL (s : EngineState) (x : Nat) :
    processBlock (setTL s x) = setTL (processBlock s) x := by
  rw [engine_eta s]
  show processBlock ⟨s.h0, s.h1, s.h2, s.h3, s.h4, s.block, s.offset, s.shift, x, s.blocks⟩ = _
  rw [processBlock_eq, processBlock_eq]
  dsimp only [setTL]

theorem write_setTL (b : Nat) (s : EngineState) (x : Nat) :
    write b (setTL s x) = setTL (write b s) x := by
  have hsh : (setTL s x).shift = s.shift := rfl
  have hof : (setTL s x).offset = s.offset := rfl
  by_cases h : s.shift = 0
  · by_cases h2 : s.offset + 1 = 16
    · rw [write_shift_zero_full b s h h2,
        write_shift_zero_full b (setTL s x) (by rw [hsh]; exact h) (by rw [hof]; exact h2),
        wrote_setTL]
      rw [show ({ setTL s x with block := wrote b s, offset := (setTL s x).offset + 1, shift := 24 } : EngineState)
          = setTL { s with block := wrote b s, offset := s.offset + 1, shift := 24 } x from rfl]
      rw [processBlock_setTL]
    · rw [write_shift_zero b s h h2,
        write_shift_zero b (setTL s x) (by rw [hsh]; exact h) (by rw [hof]; exact h2),
        wrote_setTL]
      rfl
  · by_cases h2 : s.offset = 16
    · rw [write_shift_pos_full b s h h2,
        write_shift_pos_full b (setTL s x) (by rw [hsh]; exact h) (by rw [hof]; exact h2),
        wrote_setTL]
      rw [show ({ setTL s x with block := wrote b s, shift := (setTL s x).shift - 8 } : EngineState)
          = setTL { s with block := wrote b s, shift := s.shift - 8 } x from rfl]
      rw [processBlock_setTL]
    · rw [write_shift_pos b s h h2,
        write_shift_pos b (setTL s x) (by rw [hsh]; exact h) (by rw [hof]; exact h2),
        wrote_setTL]
      rfl

theorem write_totalLength (b : Nat) (s : EngineState) :
    (write b s).totalLength = s.totalLength := by
  by_cases h : s.shift = 0
  · by_cases h2 : s.offset + 1 = 16
    · rw [write_shift_zero_full b s h h2, processBlock_totalLength]
    · rw [write_shift_zero b s h h2]
  · by_cases h2 : s.offset = 16
    · rw [write_shift_pos_full b s h h2, processBlock_totalLength]
    · rw [write_shift_pos b s h h2]

theorem writeList_nil (s : EngineState) : writeList [] s = s := rfl

theorem writeList_cons (b : Nat) (l : List Nat) (s : EngineState) :
    writeList (b :: l) s = writeList l (write b s) := rfl

theorem writeList_append (l1 l2 : List Nat) (s : EngineState) :
    writeList (l1 ++ l2) s = writeList l2 (writeList l1 s) := by
  unfold writeList
  exact List.foldl_append _ _ _ _

theorem writeList_totalLength (l : List Nat) (s : EngineState) :
    (writeList l s).totalLength = s.totalLength := by
  induction l generalizing s with
  | nil => rfl
  | cons b l ih => rw [writeList_cons, ih, write_totalLength]

theorem writeList_setTL (l : List Nat) (s : EngineState) (x : Nat) :
    writeList l (setTL s x) = setTL (writeList l s) x := by
  induction l generalizing s with
  | nil => rfl
  | cons b l ih => rw [writeList_cons, write_setTL, ih, writeList_cons]

theorem update_append (l1 l2 : List Nat) (s : EngineState) :
    update (l1 ++ l2) s = update l2 (update l1 s) := by
  rw [update_eq_writeList, update_eq_writeList, update_eq_writeList,
    writeList_totalLength, setTL_totalLength, writeList_setTL, writeList_setTL,
    writeList_setTL, writeList_setTL, setTL_setTL, writeList_append, List.length_append]
  congr 1
  ring

theorem update_nil (s : EngineState) : update [] s = s := by
  rw [update_eq_writeList, writeList_nil]
  show setTL s (s.totalLength + 0 * 8) = s
  rw [Nat.zero_mul, Nat.add_zero, setTL_self]

theorem applyChunks_eq_update_flatten (chunks : List (List Nat)) (s : EngineState) :
    applyChunks chunks s = update chunks.flatten s := by
  induction chunks generalizing s with
  | nil =>
    show s = update [] s
    rw [update_nil]
  | cons c cs ih =>
    show applyChunks cs (update c s) = update (c :: cs).flatten s
    rw [ih, List.flatten_cons, update_append]

theorem land_255_eq_mod (b : Nat) : b &&& 255 = b % 256 := by
  have h := Nat.and_pow_two_sub_one_eq_mod b 8
  norm_num at h
  exact h

theorem wrote_mod (b : Nat) (s : EngineState) : wrote (b % 256) s = wrote b s := by
  unfold wrote
  rw [show ((b % 256) &&& 0xff) = (b &&& 0xff) by
    rw [show (0xff : Nat) = 255 from rfl, land_255_eq_mod, land_255_eq_mod]
    omega]

theorem write_mod (b : Nat) (s : EngineState) : write (b % 256) s = write b s := by
  by_cases h : s.shift = 0
  · by_cases h2 : s.offset + 1 = 16
    · rw [write_shift_zero_full _ s h h2, write_shift_zero_full _ s h h2, wrote_mod]
    · rw [write_shift_zero _ s h h2, write_shift_zero _ s h h2, wrote_mod]
  · by_cases h2 : s.offset = 16
    · rw [write_shift_pos_full _ s h h2, write_shift_pos_full _ s h h2, wrote_mod]
    · rw [write_shift_pos _ s h h2, write_shift_pos _ s h h2, wrote_mod]

theorem writeList_mod (l : List Nat) (s : EngineState) :
    writeList (l.map fun v => v % 256) s = writeList l s := by
  induction l generalizing s with
  | nil => rfl
  | cons b l ih =>
    rw [List.map_cons, writeList_cons, writeList_cons, write_mod, ih]

theorem updateString_eq_update (cus : List Nat) (s : EngineState) :
    updateString cus s = update cus s := rfl

theorem update_totalLength (l : List Nat) (s : EngineState) :
    (update l s).totalLength = s.totalLength + l.length * 8 := by
  rw [update_eq_writeList, writeList_totalLength, setTL_totalLength]

/-! ## Claims -/

set_option maxRecDepth 100000 in
/-- C1: the one-shot form over the Digest Engine (`createJs`) reproduces
the known-answer digests for the empty string, `"abc"`, and
`"The quick brown fox jumps over the lazy dog"`. -/
theorem sha1_known_answer_digests :
    sha1 "" = "da39a3ee5e6b4b0d3255bfef95601890afd80709" ∧
    sha1 "abc" = "a9993e364706816aba3e25717850c26c9cd0d89d" ∧
    sha1 "The quick brown fox jumps over the lazy dog" =
      "2fd4e1c67a2d28fced849ee1bb76e7391b93eb12" :=
  ⟨by decide, by decide, by decide⟩

/-- C2: chunking independence — for every byte sequence and every
partitioning of it into consecutive chunks (including empty chunks),
feeding the chunks through successive `update` calls and then taking
`digest()` yields the same digest string as a single `update` of the whole
sequence on a fresh engine. -/
theorem digest_chunking_independent (chunks : List (List Nat)) :
    digestOutput (applyChunks chunks initial) = digestOutput (update chunks.flatten initial) := by
  rw [applyChunks_eq_update_flatten]

set_option maxRecDepth 100000 in
/-- C9 counterexample: a second `digest()` call on an already-finalized
engine is not a usage fault — it silently returns a different
40-character digest string (shown here on the empty-input engine). -/
theorem second_digest_not_a_fault :
    digestOutput (digestState initial) ≠ digestOutput initial ∧
    (digestOutput (digestState initial)).length = 40 :=
  ⟨by decide, by decide⟩

set_option maxRecDepth 100000 in
/-- C9 (amended): calling `digest()` a second time on the same engine
instance is deterministic but is not surfaced as a usage fault: the code
silently re-pads the finalized state and returns a second, different
digest string (concretely, on the empty-input engine the first call
returns the SHA-1 of the empty string and the second call returns
`"2485e7539b2c97a21e718525bf51d56d1559a0ee"`). -/
theorem second_digest_silently_differs :
    digestOutput initial = "da39a3ee5e6b4b0d3255bfef95601890afd80709" ∧
    digestOutput (digestState initial) = "2485e7539b2c97a21e718525bf51d56d1559a0ee" ∧
    digestOutput (digestState initial) ≠ digestOutput initial :=
  ⟨by decide, by decide, by decide⟩

/-- C10: every value entering the per-byte write path contributes only its
low 8 bits: replacing each array element by its value mod 256 yields an
identical engine state, a string is hashed exactly as the array of its
code units reduced mod 256 (values of 256 or more are reduced, never
rejected), and `totalLength` still counts 8 bits per element or code
unit. -/
theorem write_path_masks_to_low_byte (l cus : List Nat) (s : EngineState) :
    update (l.map fun v => v % 256) s = update l s ∧
    updateString cus s = update (cus.map fun c => c % 256) s ∧
    (update l s).totalLength = s.totalLength + 8 * l.length ∧
    (updateString cus s).totalLength = s.totalLength + 8 * cus.length := by
  refine ⟨?_, ?_, ?_, ?_⟩
  · rw [update_eq_writeList, update_eq_writeList, List.length_map, writeList_mod]
  · rw [updateString_eq_update, update_eq_writeList, update_eq_writeList,
      List.length_map, writeList_mod]
  · rw [update_totalLength]; ring
  · rw [updateString_eq_update, update_totalLength]; ring

/-! ## Output shape (C7) -/

theorem toHexAux_length (n : Nat) : ∀ w : Nat, (toHexAux n w).length = n := by
  induction n with
  | zero => intro w; rfl
  | succ n ih =>
    intro w
    show (toHexAux (n + 1) w).length = n + 1
    rw [show toHexAux (n + 1) w = hexChar ((w >>> (4 * n)) &&& 0xf) :: toHexAux n w from rfl,
      List.length_cons, ih]

theorem hexChar_is_hex_digit :
    ∀ m : Nat, m < 16 →
      (⟨48, by decide⟩ ≤ hexChar m ∧ hexChar m ≤ ⟨57, by decide⟩) ∨
      (⟨97, by decide⟩ ≤ hexChar m ∧ hexChar m ≤ ⟨102, by decide⟩) := by
  decide

theorem mem_toHexAux (n : Nat) :
    ∀ (w : Nat) (c : Char), c ∈ toHexAux n w → ∃ m, m < 16 ∧ c = hexChar m := by
  induction n with
  | zero => intro w c h; exact absurd h (List.not_mem_nil c)
  | succ n ih =>
    intro w c h
    rw [show toHexAux (n + 1) w = hexChar ((w >>> (4 * n)) &&& 0xf) :: toHexAux n w from rfl,
      List.mem_cons] at h
    rcases h with h | h
    · exact ⟨(w >>> (4 * n)) &&& 0xf, Nat.and_lt_two_pow _ (show 15 < 2 ^ 4 by decide), h⟩
    · exact ih w c h

theorem toHex_length (w : Nat) : (toHex w).length = 8 :=
  toHexAux_length 8 w

theorem toHex_data (w : Nat) : (toHex w).data = toHexAux 8 w := rfl

/-- C7: for every input byte sequence and every chunking of it, `digest()`
returns exactly 40 characters, each a lowercase hexadecimal digit
(`0`–`9` or `a`–`f`). -/
theorem digest_output_shape (chunks : List (List Nat)) :
    (digestOutput (applyChunks chunks initial)).length = 40 ∧
    ∀ c ∈ (digestOutput (applyChunks chunks initial)).data,
      (('0' : Char) ≤ c ∧ c ≤ ('9' : Char)) ∨ (('a' : Char) ≤ c ∧ c ≤ ('f' : Char)) := by
  constructor
  · rw [digestOutput]
    rw [String.length_append, String.length_append, String.length_append,
      String.length_append, toHex_length, toHex_length, toHex_length, toHex_length,
      toHex_length]
  · intro c hc
    rw [digestOutput] at hc
    rw [String.data_append, String.data_append, String.data_append, String.data_append] at hc
    rw [List.mem_append, List.mem_append, List.mem_append, List.mem_append] at hc
    rw [toHex_data, toHex_data, toHex_data, toHex_data, toHex_data] at hc
    have hm : ∃ m, m < 16 ∧ c = hexChar m := by
      rcases hc with ((((h | h) | h) | h) | h) <;> exact mem_toHexAux 8 _ c h
    rcases hm with ⟨m, hm16, rfl⟩
    exact hexChar_is_hex_digit m hm16

/-- C7 witness: the shape property evaluated on a concrete one-chunk
input. -/
theorem digest_output_shape_witness :
    (digestOutput (applyChunks [[97]] initial)).length = 40 ∧
    ∀ c ∈ (digestOutput (applyChunks [[97]] initial)).data,
      (('0' : Char) ≤ c ∧ c ≤ ('9' : Char)) ∨ (('a' : Char) ≤ c ∧ c ≤ ('f' : Char)) :=
  digest_output_shape [[97]]


/-! ## Cursor invariant and byte accounting (C6) -/

/-- Number of bytes currently written into the partial block, expressed
from the cursor as in the spec: `wordOffset*4 + (3 - byteShift/8)`. -/
def bytesFilled (s : EngineState) : Nat :=
  4 * s.offset + (3 - s.shift / 8)

/-- Cursor well-formedness: the word offset stays in `0..15` and the shift
is one of the four byte positions. -/
structure CursorInv (s : EngineState) : Prop where
  offset_le : s.offset <= 15
  shift_mem : s.shift = 24 \/ s.shift = 16 \/ s.shift = 8 \/ s.shift = 0

theorem bytesFilled_le (s : EngineState) (hI : CursorInv s) : bytesFilled s <= 63 := by
  have h1 := hI.offset_le
  rcases hI.shift_mem with h | h | h | h <;> unfold bytesFilled <;> rw [h] <;> omega

theorem write_cursor_pos (b : Nat) (s : EngineState) (hoff : s.offset <= 15) (h : s.shift = 24 \/ s.shift = 16 \/ s.shift = 8) :
    CursorInv (write b s) /\
    bytesFilled (write b s) = (bytesFilled s + 1) % 64 /\
    (write b s).blocks = s.blocks + (bytesFilled s + 1) / 64 := by
  rw [write_shift_pos b s (by omega) (by omega)]
  refine ⟨⟨?_, ?_⟩, ?_, ?_⟩
  · show s.offset <= 15
    exact hoff
  · show s.shift - 8 = 24 \/ s.shift - 8 = 16 \/ s.shift - 8 = 8 \/ s.shift - 8 = 0
    omega
  · show 4 * s.offset + (3 - (s.shift - 8) / 8) = (4 * s.offset + (3 - s.shift / 8) + 1) % 64
    omega
  · show s.blocks = s.blocks + (4 * s.offset + (3 - s.shift / 8) + 1) / 64
    omega

theorem write_cursor (b : Nat) (s : EngineState) (hI : CursorInv s) :
    CursorInv (write b s) /\
    bytesFilled (write b s) = (bytesFilled s + 1) % 64 /\
    (write b s).blocks = s.blocks + (bytesFilled s + 1) / 64 := by
  have hoff := hI.offset_le
  rcases hI.shift_mem with h | h | h | h
  · exact write_cursor_pos b s hoff (by omega)
  · exact write_cursor_pos b s hoff (by omega)
  · exact write_cursor_pos b s hoff (by omega)
  · by_cases h2 : s.offset + 1 = 16
    · rw [write_shift_zero_full b s h h2]
      have hsh : (processBlock { s with block := wrote b s, offset := s.offset + 1, shift := 24 }).shift = 24 := by
        rw [processBlock_shift]
      refine ⟨⟨?_, ?_⟩, ?_, ?_⟩
      · rw [processBlock_offset]; omega
      · rw [hsh]; left; rfl
      · unfold bytesFilled
        rw [processBlock_offset, hsh, h]
        omega
      · rw [processBlock_blocks]
        show s.blocks + 1 = s.blocks + (bytesFilled s + 1) / 64
        unfold bytesFilled
        rw [h]
        omega
    · rw [write_shift_zero b s h h2]
      refine ⟨⟨?_, ?_⟩, ?_, ?_⟩
      · show s.offset + 1 <= 15
        omega
      · show (24 : Nat) = 24 \/ (24 : Nat) = 16 \/ (24 : Nat) = 8 \/ (24 : Nat) = 0
        left; rfl
      · show 4 * (s.offset + 1) + (3 - 24 / 8) = (4 * s.offset + (3 - s.shift / 8) + 1) % 64
        rw [h]
        omega
      · show s.blocks = s.blocks + (4 * s.offset + (3 - s.shift / 8) + 1) / 64
        rw [h]
        omega

theorem writeList_cursor (l : List Nat) (s : EngineState) (hI : CursorInv s) :
    CursorInv (writeList l s) /\
    bytesFilled (writeList l s) = (bytesFilled s + l.length) % 64 /\
    (writeList l s).blocks = s.blocks + (bytesFilled s + l.length) / 64 := by
  induction l generalizing s with
  | nil =>
    have := bytesFilled_le s hI
    refine ⟨hI, ?_, ?_⟩
    · show bytesFilled s = (bytesFilled s + ([] : List Nat).length) % 64
      rw [List.length_nil]
      omega
    · show s.blocks = s.blocks + (bytesFilled s + ([] : List Nat).length) / 64
      rw [List.length_nil]
      omega
  | cons b l ih =>
    rw [writeList_cons]
    obtain ⟨hI1, hbf, hbl⟩ := write_cursor b s hI
    obtain ⟨hI2, hbf2, hbl2⟩ := ih (write b s) hI1
    have hle := bytesFilled_le s hI
    refine ⟨hI2, ?_, ?_⟩
    · rw [hbf2, hbf, List.length_cons]
      omega
    · rw [hbl2, hbf, hbl, List.length_cons]
      omega

theorem setTL_bytesFilled (s : EngineState) (x : Nat) : bytesFilled (setTL s x) = bytesFilled s := rfl

theorem setTL_blocks (s : EngineState) (x : Nat) : (setTL s x).blocks = s.blocks := rfl

theorem setTL_cursorInv (s : EngineState) (x : Nat) (hI : CursorInv s) : CursorInv (setTL s x) :=
  ⟨hI.offset_le, hI.shift_mem⟩

theorem initial_cursorInv : CursorInv initial := ⟨by decide, by left; rfl⟩

theorem update_cursor (l : List Nat) (s : EngineState) (hI : CursorInv s) :
    CursorInv (update l s) /\
    bytesFilled (update l s) = (bytesFilled s + l.length) % 64 /\
    (update l s).blocks = s.blocks + (bytesFilled s + l.length) / 64 := by
  rw [update_eq_writeList]
  have h := writeList_cursor l (setTL s (s.totalLength + l.length * 8)) (setTL_cursorInv s _ hI)
  rw [setTL_bytesFilled, setTL_blocks] at h
  exact h

/-- C6: after construction and after every completed sequence of `update`
calls consuming `n` bytes in total, the cursor is well-formed
(`wordOffset` in `0..15`, `byteShift` in `{24,16,8,0}`), the number of
bytes written into the current partial block is
`wordOffset*4 + (3 - byteShift/8)` (equal to `n % 64`), the number of
fully processed blocks is `n / 64`, and
`(64 * blocks + partialCount) * 8` equals `totalLength`. -/
theorem cursor_and_length_invariant (chunks : List (List Nat)) :
    (applyChunks chunks initial).offset <= 15 /\
    ((applyChunks chunks initial).shift = 24 \/ (applyChunks chunks initial).shift = 16 \/
      (applyChunks chunks initial).shift = 8 \/ (applyChunks chunks initial).shift = 0) /\
    4 * (applyChunks chunks initial).offset + (3 - (applyChunks chunks initial).shift / 8) =
      chunks.flatten.length % 64 /\
    (applyChunks chunks initial).blocks = chunks.flatten.length / 64 /\
    (64 * (applyChunks chunks initial).blocks +
      (4 * (applyChunks chunks initial).offset + (3 - (applyChunks chunks initial).shift / 8))) * 8 =
      (applyChunks chunks initial).totalLength := by
  rw [applyChunks_eq_update_flatten]
  obtain ⟨hI, hbf, hbl⟩ := update_cursor chunks.flatten initial initial_cursorInv
  have h0 : bytesFilled initial = 0 := rfl
  have hb0 : initial.blocks = 0 := rfl
  rw [h0] at hbf hbl
  rw [hb0] at hbl
  have htl : (update chunks.flatten initial).totalLength = chunks.flatten.length * 8 := by
    rw [update_totalLength]
    show (0 : Nat) + chunks.flatten.length * 8 = chunks.flatten.length * 8
    omega
  unfold bytesFilled at hbf
  refine ⟨hI.offset_le, hI.shift_mem, by omega, by omega, by rw [htl]; omega⟩

/-! ## Block-content invariant (C4) -/

theorem getD_set_self (l : List Nat) (i v : Nat) (h : i < l.length) :
    (l.set i v).getD i 0 = v := by
  rw [List.getD_eq_getElem?_getD, List.getElem?_set]
  simp [h]

theorem getD_set_ne (l : List Nat) (i j v : Nat) (h : i ≠ j) :
    (l.set i v).getD j 0 = l.getD j 0 := by
  rw [List.getD_eq_getElem?_getD, List.getElem?_set, if_neg h, ← List.getD_eq_getElem?_getD]

theorem lor_mod_two_pow (a b k : Nat) : (a ||| b) % 2 ^ k = (a % 2 ^ k) ||| (b % 2 ^ k) := by
  apply Nat.eq_of_testBit_eq
  intro i
  rw [Nat.testBit_mod_two_pow, Nat.testBit_or, Nat.testBit_or, Nat.testBit_mod_two_pow,
    Nat.testBit_mod_two_pow]
  by_cases h : i < k <;> simp [h]

theorem expandAux_succ (n i : Nat) (blk : List Nat) :
    expandAux (n + 1) i blk =
      expandAux n (i + 1) (blk.set i
        ((((blk.getD (i - 3) 0 ^^^ blk.getD (i - 8) 0 ^^^ blk.getD (i - 14) 0 ^^^ blk.getD (i - 16) 0) <<< 1) % 4294967296) |||
          ((blk.getD (i - 3) 0 ^^^ blk.getD (i - 8) 0 ^^^ blk.getD (i - 14) 0 ^^^ blk.getD (i - 16) 0) >>> 31))) := rfl

theorem zeroHeadAux_succ (n i : Nat) (blk : List Nat) :
    zeroHeadAux (n + 1) i blk = zeroHeadAux n (i + 1) (blk.set i 0) := rfl

theorem expandAux_length (n : Nat) : ∀ (i : Nat) (blk : List Nat), (expandAux n i blk).length = blk.length := by
  induction n with
  | zero => intro i blk; rfl
  | succ n ih =>
    intro i blk
    rw [expandAux_succ, ih, List.length_set]

theorem zeroHeadAux_length (n : Nat) : ∀ (i : Nat) (blk : List Nat), (zeroHeadAux n i blk).length = blk.length := by
  induction n with
  | zero => intro i blk; rfl
  | succ n ih =>
    intro i blk
    rw [zeroHeadAux_succ, ih, List.length_set]

theorem zeroHeadAux_getD_lt (n : Nat) : ∀ (i : Nat) (blk : List Nat) (j : Nat), j < i →
    (zeroHeadAux n i blk).getD j 0 = blk.getD j 0 := by
  induction n with
  | zero => intro i blk j hj; rfl
  | succ n ih =>
    intro i blk j hj
    rw [zeroHeadAux_succ, ih (i + 1) _ j (by omega), getD_set_ne _ _ _ _ (by omega)]

theorem zeroHeadAux_getD_zero (n : Nat) : ∀ (i : Nat) (blk : List Nat) (j : Nat),
    i <= j → j < i + n → j < blk.length → (zeroHeadAux n i blk).getD j 0 = 0 := by
  induction n with
  | zero => intro i blk j h1 h2; omega
  | succ n ih =>
    intro i blk j h1 h2 h3
    rw [zeroHeadAux_succ]
    by_cases hji : j = i
    · subst hji
      rw [zeroHeadAux_getD_lt n (j + 1) _ j (by omega), getD_set_self _ _ _ h3]
    · exact ih (i + 1) _ j (by omega) (by omega) (by rw [List.length_set]; exact h3)

theorem processBlock_length (s : EngineState) :
    (processBlock s).block.length = s.block.length := by
  rw [processBlock_block, zeroHeadAux_length, expandAux_length]

theorem processBlock_block_zero (s : EngineState) (hlen : s.block.length = 80) :
    ∀ j, j < 16 → (processBlock s).block.getD j 0 = 0 := by
  intro j hj
  rw [processBlock_block]
  exact zeroHeadAux_getD_zero 16 0 _ j (by omega) (by omega)
    (by rw [expandAux_length]; omega)

/-- Full state invariant of the byte-writing path: the cursor is
well-formed, the buffer has its 80-word capacity, every data word strictly
beyond the cursor is zero, the unwritten low bits of the word at the cursor
are zero, and every data word fits in 32 bits. -/
structure Inv (s : EngineState) : Prop where
  offset_le : s.offset <= 15
  shift_mem : s.shift = 24 \/ s.shift = 16 \/ s.shift = 8 \/ s.shift = 0
  len80 : s.block.length = 80
  tail_zero : ∀ j, s.offset < j → j < 16 → s.block.getD j 0 = 0
  cur_lo : s.block.getD s.offset 0 % 2 ^ (s.shift + 8) = 0
  words_lt : ∀ j, j < 16 → s.block.getD j 0 < 2 ^ 32

theorem initial_inv : Inv initial := by
  refine ⟨by decide, by left; rfl, by decide, ?_, by decide, ?_⟩
  · intro j h1 h2
    show (List.replicate 80 0).getD j 0 = 0
    rw [List.getD_eq_getElem?_getD, List.getElem?_replicate]
    by_cases h : j < 80 <;> simp [h]
  · intro j h1
    show (List.replicate 80 0).getD j 0 < 2 ^ 32
    rw [List.getD_eq_getElem?_getD, List.getElem?_replicate]
    by_cases h : j < 80 <;> simp [h]

theorem wrote_getD_self (b : Nat) (s : EngineState) (h : s.offset < s.block.length) :
    (wrote b s).getD s.offset 0 = s.block.getD s.offset 0 ||| ((b &&& 0xff) <<< s.shift) := by
  unfold wrote
  exact getD_set_self _ _ _ h

theorem wrote_getD_ne (b : Nat) (s : EngineState) (j : Nat) (h : s.offset ≠ j) :
    (wrote b s).getD j 0 = s.block.getD j 0 := by
  unfold wrote
  exact getD_set_ne _ _ _ _ h

theorem wrote_length (b : Nat) (s : EngineState) : (wrote b s).length = s.block.length := by
  unfold wrote
  exact List.length_set _ _ _

theorem byte_shifted_lt (b sh : Nat) (h : sh <= 24) : (b &&& 0xff) <<< sh < 2 ^ 32 := by
  rw [Nat.shiftLeft_eq]
  have h1 : b &&& 0xff < 2 ^ 8 := Nat.and_lt_two_pow b (by decide)
  have h2 : (2 : Nat) ^ sh <= 2 ^ 24 := Nat.pow_le_pow_right (by omega) h
  have h3 : (b &&& 0xff) * 2 ^ sh < 2 ^ 8 * 2 ^ sh :=
    (Nat.mul_lt_mul_right (Nat.two_pow_pos sh)).mpr h1
  have h4 : (2 : Nat) ^ 8 * 2 ^ sh <= 2 ^ 8 * 2 ^ 24 := Nat.mul_le_mul_left _ h2
  have h5 : (b &&& 0xff) * 2 ^ sh < 2 ^ 8 * 2 ^ 24 := lt_of_lt_of_le h3 h4
  norm_num at h5
  exact h5

theorem wrote_value_lt (b : Nat) (s : EngineState) (hI : Inv s) :
    s.block.getD s.offset 0 ||| ((b &&& 0xff) <<< s.shift) < 2 ^ 32 := by
  apply Nat.or_lt_two_pow
  · exact hI.words_lt s.offset (by have := hI.offset_le; omega)
  · apply byte_shifted_lt
    rcases hI.shift_mem with h | h | h | h <;> omega

theorem wrote_value_lo (b : Nat) (s : EngineState) (hI : Inv s) :
    (s.block.getD s.offset 0 ||| ((b &&& 0xff) <<< s.shift)) % 2 ^ s.shift = 0 := by
  rw [lor_mod_two_pow]
  have h1 : s.block.getD s.offset 0 % 2 ^ s.shift = 0 := by
    have hd : (2 : Nat) ^ s.shift ∣ 2 ^ (s.shift + 8) := pow_dvd_pow 2 (by omega)
    have hm := Nat.mod_mod_of_dvd (s.block.getD s.offset 0) hd
    rw [hI.cur_lo] at hm
    rw [← hm]
    rfl
  have h2 : ((b &&& 0xff) <<< s.shift) % 2 ^ s.shift = 0 := by
    rw [Nat.shiftLeft_eq, Nat.mul_mod_left]
  rw [h1, h2]
  rfl

theorem write_inv_pos (b : Nat) (s : EngineState) (hI : Inv s)
    (h : s.shift = 24 \/ s.shift = 16 \/ s.shift = 8) : Inv (write b s) := by
  have hoff : s.offset < s.block.length := by
    have := hI.offset_le
    have := hI.len80
    omega
  have hvlt := wrote_value_lt b s hI
  have hvlo := wrote_value_lo b s hI
  rw [write_shift_pos b s (by omega) (by have := hI.offset_le; omega)]
  refine ⟨?_, ?_, ?_, ?_, ?_, ?_⟩
  · show s.offset <= 15
    exact hI.offset_le
  · show s.shift - 8 = 24 \/ s.shift - 8 = 16 \/ s.shift - 8 = 8 \/ s.shift - 8 = 0
    omega
  · show (wrote b s).length = 80
    rw [wrote_length, hI.len80]
  · intro j h1 h2
    show (wrote b s).getD j 0 = 0
    have h1x : s.offset < j := h1
    rw [wrote_getD_ne b s j (by omega)]
    exact hI.tail_zero j h1x h2
  · show (wrote b s).getD s.offset 0 % 2 ^ (s.shift - 8 + 8) = 0
    rw [wrote_getD_self b s hoff]
    rw [show s.shift - 8 + 8 = s.shift by omega]
    exact hvlo
  · intro j h1
    show (wrote b s).getD j 0 < 2 ^ 32
    by_cases hj : s.offset = j
    · rw [← hj, wrote_getD_self b s hoff]
      exact hvlt
    · rw [wrote_getD_ne b s j hj]
      exact hI.words_lt j h1

theorem write_inv (b : Nat) (s : EngineState) (hI : Inv s) : Inv (write b s) := by
  have hoff : s.offset < s.block.length := by
    have := hI.offset_le
    have := hI.len80
    omega
  have hvlt := wrote_value_lt b s hI
  have hvlo := wrote_value_lo b s hI
  rcases hI.shift_mem with h | h | h | h
  · exact write_inv_pos b s hI (by omega)
  · exact write_inv_pos b s hI (by omega)
  · exact write_inv_pos b s hI (by omega)
  by_cases h2 : s.offset + 1 = 16
  · rw [write_shift_zero_full b s h h2]
    have hlen : ({ s with block := wrote b s, offset := s.offset + 1, shift := 24 } : EngineState).block.length = 80 := by
      show (wrote b s).length = 80
      rw [wrote_length, hI.len80]
    refine ⟨?_, ?_, ?_, ?_, ?_, ?_⟩
    · rw [processBlock_offset]
      omega
    · rw [processBlock_shift]
      left
      rfl
    · rw [processBlock_length]
      exact hlen
    · intro j h1 hj2
      exact processBlock_block_zero _ hlen j hj2
    · rw [processBlock_offset, processBlock_shift]
      rw [processBlock_block_zero _ hlen 0 (by omega)]
      rfl
    · intro j hj
      rw [processBlock_block_zero _ hlen j hj]
      exact Nat.two_pow_pos 32
  · rw [write_shift_zero b s h h2]
    have hole : s.offset <= 14 := by
      have := hI.offset_le
      omega
    refine ⟨?_, ?_, ?_, ?_, ?_, ?_⟩
    · show s.offset + 1 <= 15
      omega
    · show (24 : Nat) = 24 \/ (24 : Nat) = 16 \/ (24 : Nat) = 8 \/ (24 : Nat) = 0
      left
      rfl
    · show (wrote b s).length = 80
      rw [wrote_length, hI.len80]
    · intro j h1 hj2
      show (wrote b s).getD j 0 = 0
      have h1x : s.offset + 1 < j := h1
      rw [wrote_getD_ne b s j (by omega)]
      exact hI.tail_zero j (by omega) hj2
    · show (wrote b s).getD (s.offset + 1) 0 % 2 ^ (24 + 8) = 0
      rw [wrote_getD_ne b s (s.offset + 1) (by omega)]
      rw [hI.tail_zero (s.offset + 1) (by omega) (by omega)]
      rfl
    · intro j h1
      show (wrote b s).getD j 0 < 2 ^ 32
      by_cases hj : s.offset = j
      · rw [← hj, wrote_getD_self b s hoff]
        exact hvlt
      · rw [wrote_getD_ne b s j hj]
        exact hI.words_lt j h1

theorem writeList_inv (l : List Nat) (s : EngineState) (hI : Inv s) : Inv (writeList l s) := by
  induction l generalizing s with
  | nil => exact hI
  | cons b l ih =>
    rw [writeList_cons]
    exact ih (write b s) (write_inv b s hI)

theorem setTL_inv (s : EngineState) (x : Nat) (hI : Inv s) : Inv (setTL s x) :=
  ⟨hI.offset_le, hI.shift_mem, hI.len80, hI.tail_zero, hI.cur_lo, hI.words_lt⟩

theorem update_inv (l : List Nat) (s : EngineState) (hI : Inv s) : Inv (update l s) := by
  rw [update_eq_writeList]
  exact writeList_inv l _ (setTL_inv s _ hI)

theorem applyChunks_inv (chunks : List (List Nat)) (s : EngineState) (hI : Inv s) :
    Inv (applyChunks chunks s) := by
  rw [applyChunks_eq_update_flatten]
  exact update_inv _ s hI

theorem force_cursor_block (X : EngineState) :
    ({ X with offset := 14, shift := 24 } : EngineState).block = X.block := rfl

theorem force_cursor_blocks (X : EngineState) :
    ({ X with offset := 14, shift := 24 } : EngineState).blocks = X.blocks := rfl

theorem padPart_pos (s : EngineState)
    (h : 14 < (write 0x80 s).offset \/ ((write 0x80 s).offset = 14 /\ (write 0x80 s).shift < 24)) :
    padPart s = { processBlock (write 0x80 s) with offset := 14, shift := 24 } := by
  unfold padPart
  dsimp only
  rw [if_pos h]

theorem padPart_neg (s : EngineState)
    (h : ¬(14 < (write 0x80 s).offset \/ ((write 0x80 s).offset = 14 /\ (write 0x80 s).shift < 24))) :
    padPart s = { write 0x80 s with offset := 14, shift := 24 } := by
  unfold padPart
  dsimp only
  rw [if_neg h]

/-- C4: during `digest()`, after the `0x80` padding byte goes through the
normal write path, the extra block-processing pass runs exactly when the
cursor is past word offset 14 or at word 14 with that word partially
filled (the ghost `blocks` counter increases by exactly one then, and is
unchanged otherwise); when it runs, the block it consumes has all its
remaining bytes zero (every whole word beyond the cursor, words 14 and 15
included, is zero, and the unwritten low bits of the word at the cursor
are zero); and in every case, once the cursor is forced to word 14, every
word of the final block strictly between the `0x80` byte and word 14 is
zero, including the unwritten low bits of the word holding the `0x80`
byte — never leftover data from earlier blocks. -/
theorem padding_zero_fills_block (chunks : List (List Nat)) :
    ((14 < (write 0x80 (applyChunks chunks initial)).offset \/
        ((write 0x80 (applyChunks chunks initial)).offset = 14 /\
          (write 0x80 (applyChunks chunks initial)).shift < 24)) →
      (∀ j, (write 0x80 (applyChunks chunks initial)).offset < j → j < 16 →
        (write 0x80 (applyChunks chunks initial)).block.getD j 0 = 0) /\
      (write 0x80 (applyChunks chunks initial)).block.getD
          (write 0x80 (applyChunks chunks initial)).offset 0 %
          2 ^ ((write 0x80 (applyChunks chunks initial)).shift + 8) = 0 /\
      (padPart (applyChunks chunks initial)).blocks =
          (write 0x80 (applyChunks chunks initial)).blocks + 1 /\
      ∀ j, j < 14 → (padPart (applyChunks chunks initial)).block.getD j 0 = 0) /\
    (¬(14 < (write 0x80 (applyChunks chunks initial)).offset \/
        ((write 0x80 (applyChunks chunks initial)).offset = 14 /\
          (write 0x80 (applyChunks chunks initial)).shift < 24)) →
      (padPart (applyChunks chunks initial)).blocks =
          (write 0x80 (applyChunks chunks initial)).blocks /\
      (∀ j, (write 0x80 (applyChunks chunks initial)).offset < j → j < 14 →
        (padPart (applyChunks chunks initial)).block.getD j 0 = 0) /\
      (padPart (applyChunks chunks initial)).block.getD
          (write 0x80 (applyChunks chunks initial)).offset 0 %
          2 ^ ((write 0x80 (applyChunks chunks initial)).shift + 8) = 0) := by
  have hs1 : Inv (write 0x80 (applyChunks chunks initial)) :=
    write_inv _ _ (applyChunks_inv chunks initial initial_inv)
  constructor
  · intro h
    have e1 : (padPart (applyChunks chunks initial)).blocks =
        (processBlock (write 0x80 (applyChunks chunks initial))).blocks := by
      rw [padPart_pos _ h, force_cursor_blocks]
    have e2 : (padPart (applyChunks chunks initial)).block =
        (processBlock (write 0x80 (applyChunks chunks initial))).block := by
      rw [padPart_pos _ h, force_cursor_block]
    refine ⟨?_, hs1.cur_lo, ?_, ?_⟩
    · intro j h1 h2
      exact hs1.tail_zero j h1 h2
    · rw [e1, processBlock_blocks]
    · intro j hj
      rw [e2]
      exact processBlock_block_zero _ hs1.len80 j (by omega)
  · intro h
    have e1 : (padPart (applyChunks chunks initial)).blocks =
        (write 0x80 (applyChunks chunks initial)).blocks := by
      rw [padPart_neg _ h, force_cursor_blocks]
    have e2 : (padPart (applyChunks chunks initial)).block =
        (write 0x80 (applyChunks chunks initial)).block := by
      rw [padPart_neg _ h, force_cursor_block]
    refine ⟨e1, ?_, ?_⟩
    · intro j h1 h2
      rw [e2]
      exact hs1.tail_zero j h1 (by omega)
    · rw [e2]
      exact hs1.cur_lo

set_option maxRecDepth 100000 in
/-- C4 witness: on a 56-byte input the `0x80` byte lands at word 14 with
the word partially filled, the extra pass condition holds, and the claim
instantiates there. -/
theorem padding_zero_fills_block_witness :
    (14 < (write 0x80 (applyChunks [List.replicate 56 0] initial)).offset \/
      ((write 0x80 (applyChunks [List.replicate 56 0] initial)).offset = 14 /\
        (write 0x80 (applyChunks [List.replicate 56 0] initial)).shift < 24)) /\
    (((14 < (write 0x80 (applyChunks [List.replicate 56 0] initial)).offset \/
        ((write 0x80 (applyChunks [List.replicate 56 0] initial)).offset = 14 /\
          (write 0x80 (applyChunks [List.replicate 56 0] initial)).shift < 24)) →
      (∀ j, (write 0x80 (applyChunks [List.replicate 56 0] initial)).offset < j → j < 16 →
        (write 0x80 (applyChunks [List.replicate 56 0] initial)).block.getD j 0 = 0) /\
      (write 0x80 (applyChunks [List.replicate 56 0] initial)).block.getD
          (write 0x80 (applyChunks [List.replicate 56 0] initial)).offset 0 %
          2 ^ ((write 0x80 (applyChunks [List.replicate 56 0] initial)).shift + 8) = 0 /\
      (padPart (applyChunks [List.replicate 56 0] initial)).blocks =
          (write 0x80 (applyChunks [List.replicate 56 0] initial)).blocks + 1 /\
      ∀ j, j < 14 → (padPart (applyChunks [List.replicate 56 0] initial)).block.getD j 0 = 0) /\
    (¬(14 < (write 0x80 (applyChunks [List.replicate 56 0] initial)).offset \/
        ((write 0x80 (applyChunks [List.replicate 56 0] initial)).offset = 14 /\
          (write 0x80 (applyChunks [List.replicate 56 0] initial)).shift < 24)) →
      (padPart (applyChunks [List.replicate 56 0] initial)).blocks =
          (write 0x80 (applyChunks [List.replicate 56 0] initial)).blocks /\
      (∀ j, (write 0x80 (applyChunks [List.replicate 56 0] initial)).offset < j → j < 14 →
        (padPart (applyChunks [List.replicate 56 0] initial)).block.getD j 0 = 0) /\
      (padPart (applyChunks [List.replicate 56 0] initial)).block.getD
          (write 0x80 (applyChunks [List.replicate 56 0] initial)).offset 0 %
          2 ^ ((write 0x80 (applyChunks [List.replicate 56 0] initial)).shift + 8) = 0)) :=
  ⟨by decide, padding_zero_fills_block [List.replicate 56 0]⟩

/-! ## processBlock versus the specified SHA-1 round structure (C3) -/

/-- Rotate a 32-bit word left by `n` bits, written as in the claim:
the high `n` bits wrap around to the bottom. -/
def specRotl (n w : Nat) : Nat :=
  ((w <<< n) ||| (w >>> (32 - n))) % 4294967296

/-- One round of the claim's compression step:
`temp = rotl5(a) + f + e + k + w[i] (mod 2^32)`, then
`e = d; d = c; c = rotl30(b); b = a; a = temp`. -/
def specRound (w i : Nat) (st : Nat × Nat × Nat × Nat × Nat) : Nat × Nat × Nat × Nat × Nat :=
  let a := st.1
  let b := st.2.1
  let c := st.2.2.1
  let d := st.2.2.2.1
  let e := st.2.2.2.2
  let temp := (specRotl 5 a + roundF i b c d + e + roundK i + w) % 4294967296
  (temp, a, specRotl 30 b, c, d)

/-- The claim's 80 rounds, reading the schedule words from `blk`. -/
def specRoundsAux (blk : List Nat) : Nat → Nat → Nat × Nat × Nat × Nat × Nat → Nat × Nat × Nat × Nat × Nat
  | 0, _, st => st
  | n + 1, i, st => specRoundsAux blk n (i + 1) (specRound (blk.getD i 0) i st)

theorem two_pow_32_lit : (4294967296 : Nat) = 2 ^ 32 := by norm_num

theorem shiftRight_lt_32 (w k : Nat) (hw : w < 2 ^ 32) : w >>> k < 2 ^ 32 := by
  rw [Nat.shiftRight_eq_div_pow]
  exact lt_of_le_of_lt (Nat.div_le_self _ _) hw

/-- The source expression `((w << n) % 2^32) | (w >>> (32-n))` agrees with
the rotate-left of the 32-bit word `w`. -/
theorem rotl_src_eq_spec (n w : Nat) (hw : w < 2 ^ 32) :
    ((w <<< n) % 4294967296) ||| (w >>> (32 - n)) = specRotl n w := by
  unfold specRotl
  rw [two_pow_32_lit, lor_mod_two_pow]
  rw [Nat.mod_eq_of_lt (shiftRight_lt_32 w (32 - n) hw)]

theorem lor_disjoint_eq_add (n q b : Nat) (hb : b < 2 ^ n) :
    (2 ^ n * q) ||| b = 2 ^ n * q + b := by
  apply Nat.eq_of_testBit_eq
  intro j
  rw [Nat.testBit_or]
  rw [Nat.testBit_mul_pow_two_add q hb j]
  have hz := Nat.testBit_mul_pow_two_add q (Nat.two_pow_pos n) j
  rw [Nat.add_zero] at hz
  rw [hz]
  by_cases hj : j < n
  · simp [hj]
  · rw [Nat.testBit_lt_two_pow
      (lt_of_lt_of_le hb (Nat.pow_le_pow_right (by omega) (by omega)))]
    simp [hj]

/-- Sanity characterization: `specRotl n` really is rotation: it equals
`(w * 2^n + w / 2^(32-n)) mod 2^32` on 32-bit words. -/
theorem specRotl_add_form (n w : Nat) (hn : n < 32) (hw : w < 2 ^ 32) :
    specRotl n w = (w * 2 ^ n + w / 2 ^ (32 - n)) % 2 ^ 32 := by
  unfold specRotl
  rw [two_pow_32_lit, Nat.shiftLeft_eq, Nat.shiftRight_eq_div_pow, lor_mod_two_pow]
  have hsplit : (2 : Nat) ^ n * 2 ^ (32 - n) = 2 ^ 32 := by
    rw [← pow_add]
    congr 1
    omega
  have hcn : w / 2 ^ (32 - n) < 2 ^ n := by
    rw [Nat.div_lt_iff_lt_mul (Nat.two_pow_pos _)]
    rw [hsplit]
    exact hw
  have hclt : w / 2 ^ (32 - n) < 2 ^ 32 :=
    lt_of_lt_of_le hcn (Nat.pow_le_pow_right (by omega) (by omega))
  rw [Nat.mod_eq_of_lt hclt]
  have hdvd : 2 ^ n ∣ (w * 2 ^ n) % 2 ^ 32 := by
    apply (Nat.dvd_mod_iff (pow_dvd_pow 2 (by omega))).mpr
    exact dvd_mul_left (2 ^ n) w
  obtain ⟨q, hq⟩ := hdvd
  have halt : (w * 2 ^ n) % 2 ^ 32 < 2 ^ 32 := Nat.mod_lt _ (Nat.two_pow_pos 32)
  have hqlt : q < 2 ^ (32 - n) := by
    rw [hq] at halt
    rw [← hsplit] at halt
    exact lt_of_mul_lt_mul_left halt (Nat.zero_le _)
  have hbound : 2 ^ n * q + 2 ^ n <= 2 ^ 32 := by
    have h1 : q + 1 <= 2 ^ (32 - n) := hqlt
    have h2 : 2 ^ n * (q + 1) <= 2 ^ n * 2 ^ (32 - n) := Nat.mul_le_mul_left _ h1
    rw [hsplit] at h2
    rw [Nat.mul_add, Nat.mul_one] at h2
    exact h2
  rw [hq, lor_disjoint_eq_add n q _ hcn]
  rw [Nat.add_mod, Nat.mod_eq_of_lt hclt, ← hq]
  rw [Nat.mod_eq_of_lt (by omega : (w * 2 ^ n) % 2 ^ 32 + w / 2 ^ (32 - n) < 2 ^ 32)]

theorem roundsAux_succ (blk : List Nat) (n i : Nat) (st : Nat × Nat × Nat × Nat × Nat) :
    roundsAux blk (n + 1) i st =
      roundsAux blk n (i + 1)
        (((((st.1 <<< 5) % 4294967296) ||| (st.1 >>> 27)) + roundF i st.2.1 st.2.2.1 st.2.2.2.1 +
            st.2.2.2.2 + roundK i + blk.getD i 0) % 4294967296,
          st.1, ((st.2.1 <<< 30) % 4294967296) ||| (st.2.1 >>> 2), st.2.2.1, st.2.2.2.1) := rfl

theorem specRoundsAux_succ (blk : List Nat) (n i : Nat) (st : Nat × Nat × Nat × Nat × Nat) :
    specRoundsAux blk (n + 1) i st = specRoundsAux blk n (i + 1) (specRound (blk.getD i 0) i st) := rfl

theorem roundsAux_eq_spec (blk : List Nat) (n : Nat) :
    ∀ (i : Nat) (st : Nat × Nat × Nat × Nat × Nat), st.1 < 2 ^ 32 → st.2.1 < 2 ^ 32 →
      roundsAux blk n i st = specRoundsAux blk n i st := by
  induction n with
  | zero => intro i st h1 h2; rfl
  | succ n ih =>
    intro i st h1 h2
    rw [roundsAux_succ, specRoundsAux_succ]
    rw [show specRound (blk.getD i 0) i st =
        ((specRotl 5 st.1 + roundF i st.2.1 st.2.2.1 st.2.2.2.1 + st.2.2.2.2 + roundK i +
            blk.getD i 0) % 4294967296,
          st.1, specRotl 30 st.2.1, st.2.2.1, st.2.2.2.1) from rfl]
    rw [show (27 : Nat) = 32 - 5 from rfl] at *
    rw [show (2 : Nat) = 32 - 30 from rfl] at *
    rw [rotl_src_eq_spec 5 st.1 h1, rotl_src_eq_spec 30 st.2.1 h2]
    apply ih
    · show _ % 4294967296 < 2 ^ 32
      rw [two_pow_32_lit]
      exact Nat.mod_lt _ (by norm_num)
    · exact h1

theorem expandAux_getD_lt (n : Nat) :
    ∀ (i : Nat) (blk : List Nat) (j : Nat), j < i →
      (expandAux n i blk).getD j 0 = blk.getD j 0 := by
  induction n with
  | zero => intro i blk j hj; rfl
  | succ n ih =>
    intro i blk j hj
    rw [expandAux_succ, ih (i + 1) _ j (by omega), getD_set_ne _ _ _ _ (by omega)]

theorem expandAux_bounds (n : Nat) :
    ∀ (i : Nat) (blk : List Nat), 1 <= i →
      (∀ j, j < i → blk.getD j 0 < 2 ^ 32) →
      (∀ j, j < i + n → (expandAux n i blk).getD j 0 < 2 ^ 32) := by
  induction n with
  | zero => intro i blk hi hb j hj; exact hb j (by omega)
  | succ n ih =>
    intro i blk hi hb j hj
    rw [expandAux_succ]
    have hw : blk.getD (i - 3) 0 ^^^ blk.getD (i - 8) 0 ^^^ blk.getD (i - 14) 0 ^^^ blk.getD (i - 16) 0 < 2 ^ 32 := by
      apply Nat.xor_lt_two_pow
      apply Nat.xor_lt_two_pow
      apply Nat.xor_lt_two_pow
      · exact hb (i - 3) (by omega)
      · exact hb (i - 8) (by omega)
      · exact hb (i - 14) (by omega)
      · exact hb (i - 16) (by omega)
    have hv : (((blk.getD (i - 3) 0 ^^^ blk.getD (i - 8) 0 ^^^ blk.getD (i - 14) 0 ^^^ blk.getD (i - 16) 0) <<< 1) % 4294967296) |||
        ((blk.getD (i - 3) 0 ^^^ blk.getD (i - 8) 0 ^^^ blk.getD (i - 14) 0 ^^^ blk.getD (i - 16) 0) >>> 31) < 2 ^ 32 := by
      apply Nat.or_lt_two_pow
      · rw [two_pow_32_lit]
        exact Nat.mod_lt _ (by norm_num)
      · exact shiftRight_lt_32 _ 31 hw
    apply ih (i + 1) _ (by omega)
    · intro j2 hj2
      by_cases hji : j2 = i
      · rw [hji]
        by_cases hl : i < blk.length
        · rw [getD_set_self _ _ _ hl]
          exact hv
        · rw [List.set_eq_of_length_le (by omega)]
          rw [List.getD_eq_getElem?_getD, List.getElem?_eq_none (by omega)]
          norm_num
      · rw [getD_set_ne _ _ _ _ (by omega)]
        exact hb j2 (by omega)
    · omega

theorem expandAux_recurrence (n : Nat) :
    ∀ (i : Nat) (blk : List Nat), 16 <= i → blk.length = 80 → i + n <= 80 →
      ∀ m, i <= m → m < i + n →
        (expandAux n i blk).getD m 0 =
          ((((expandAux n i blk).getD (m - 3) 0 ^^^ (expandAux n i blk).getD (m - 8) 0 ^^^
              (expandAux n i blk).getD (m - 14) 0 ^^^ (expandAux n i blk).getD (m - 16) 0) <<< 1) %
              4294967296) |||
            ((expandAux n i blk).getD (m - 3) 0 ^^^ (expandAux n i blk).getD (m - 8) 0 ^^^
              (expandAux n i blk).getD (m - 14) 0 ^^^ (expandAux n i blk).getD (m - 16) 0) >>> 31 := by
  induction n with
  | zero => intro i blk h16 hlen hle m hm1 hm2; omega
  | succ n ih =>
    intro i blk h16 hlen hle m hm1 hm2
    by_cases hmi : m = i
    · rw [expandAux_succ]
      have hpres : ∀ j, j < i + 1 →
          (expandAux n (i + 1)
            (blk.set i
              ((((blk.getD (i - 3) 0 ^^^ blk.getD (i - 8) 0 ^^^ blk.getD (i - 14) 0 ^^^ blk.getD (i - 16) 0) <<< 1) % 4294967296) |||
                ((blk.getD (i - 3) 0 ^^^ blk.getD (i - 8) 0 ^^^ blk.getD (i - 14) 0 ^^^ blk.getD (i - 16) 0) >>> 31)))).getD j 0 =
          (blk.set i
              ((((blk.getD (i - 3) 0 ^^^ blk.getD (i - 8) 0 ^^^ blk.getD (i - 14) 0 ^^^ blk.getD (i - 16) 0) <<< 1) % 4294967296) |||
                ((blk.getD (i - 3) 0 ^^^ blk.getD (i - 8) 0 ^^^ blk.getD (i - 14) 0 ^^^ blk.getD (i - 16) 0) >>> 31))).getD j 0 := by
        intro j hj
        exact expandAux_getD_lt n (i + 1) _ j hj
      rw [hmi]
      rw [hpres i (by omega), hpres (i - 3) (by omega), hpres (i - 8) (by omega),
        hpres (i - 14) (by omega), hpres (i - 16) (by omega)]
      rw [getD_set_self _ _ _ (by omega)]
      rw [getD_set_ne _ _ _ _ (by omega : i ≠ i - 3), getD_set_ne _ _ _ _ (by omega : i ≠ i - 8),
        getD_set_ne _ _ _ _ (by omega : i ≠ i - 14), getD_set_ne _ _ _ _ (by omega : i ≠ i - 16)]
    · rw [expandAux_succ]
      exact ih (i + 1) _ (by omega) (by rw [List.length_set]; exact hlen) (by omega) m
        (by omega) (by omega)

theorem processBlock_h0 (s : EngineState) :
    (processBlock s).h0 =
      (s.h0 + (roundsAux (expandAux 64 16 s.block) 80 0 (s.h0, s.h1, s.h2, s.h3, s.h4)).1) %
        4294967296 := by
  rw [engine_eta s, processBlock_eq]

theorem processBlock_h1 (s : EngineState) :
    (processBlock s).h1 =
      (s.h1 + (roundsAux (expandAux 64 16 s.block) 80 0 (s.h0, s.h1, s.h2, s.h3, s.h4)).2.1) %
        4294967296 := by
  rw [engine_eta s, processBlock_eq]

theorem processBlock_h2 (s : EngineState) :
    (processBlock s).h2 =
      (s.h2 + (roundsAux (expandAux 64 16 s.block) 80 0 (s.h0, s.h1, s.h2, s.h3, s.h4)).2.2.1) %
        4294967296 := by
  rw [engine_eta s, processBlock_eq]

theorem processBlock_h3 (s : EngineState) :
    (processBlock s).h3 =
      (s.h3 + (roundsAux (expandAux 64 16 s.block) 80 0 (s.h0, s.h1, s.h2, s.h3, s.h4)).2.2.2.1) %
        4294967296 := by
  rw [engine_eta s, processBlock_eq]

theorem processBlock_h4 (s : EngineState) :
    (processBlock s).h4 =
      (s.h4 + (roundsAux (expandAux 64 16 s.block) 80 0 (s.h0, s.h1, s.h2, s.h3, s.h4)).2.2.2.2) %
        4294967296 := by
  rw [engine_eta s, processBlock_eq]

/-- C3: every invocation of `processBlock` computes the message schedule by
`w[i] = rotate-left-1(w[i-3] xor w[i-8] xor w[i-14] xor w[i-16])` for `i`
from 16 to 79; runs 80 rounds with `f` and `k` selected by index range and
each round setting `temp = rotate-left-5(a) + f + e + k + w[i] mod 2^32`,
then `e=d, d=c, c=rotate-left-30(b), b=a, a=temp`; and finally adds
`a,b,c,d,e` into `h0..h4` respectively modulo `2^32` (the buffer is then
reset: data words zeroed and the cursor word offset returned to 0). -/
theorem processBlock_follows_sha1_rounds (s : EngineState)
    (hlen : s.block.length = 80)
    (hw : ∀ j, j < 16 → s.block.getD j 0 < 2 ^ 32)
    (hh0 : s.h0 < 2 ^ 32) (hh1 : s.h1 < 2 ^ 32) :
    (∀ i, i < 80 → 16 <= i →
      (expandAux 64 16 s.block).getD i 0 =
        specRotl 1 ((expandAux 64 16 s.block).getD (i - 3) 0 ^^^
          (expandAux 64 16 s.block).getD (i - 8) 0 ^^^
          (expandAux 64 16 s.block).getD (i - 14) 0 ^^^
          (expandAux 64 16 s.block).getD (i - 16) 0)) /\
    (processBlock s).h0 =
      (s.h0 + (specRoundsAux (expandAux 64 16 s.block) 80 0 (s.h0, s.h1, s.h2, s.h3, s.h4)).1) %
        4294967296 /\
    (processBlock s).h1 =
      (s.h1 + (specRoundsAux (expandAux 64 16 s.block) 80 0 (s.h0, s.h1, s.h2, s.h3, s.h4)).2.1) %
        4294967296 /\
    (processBlock s).h2 =
      (s.h2 + (specRoundsAux (expandAux 64 16 s.block) 80 0 (s.h0, s.h1, s.h2, s.h3, s.h4)).2.2.1) %
        4294967296 /\
    (processBlock s).h3 =
      (s.h3 + (specRoundsAux (expandAux 64 16 s.block) 80 0 (s.h0, s.h1, s.h2, s.h3, s.h4)).2.2.2.1) %
        4294967296 /\
    (processBlock s).h4 =
      (s.h4 + (specRoundsAux (expandAux 64 16 s.block) 80 0 (s.h0, s.h1, s.h2, s.h3, s.h4)).2.2.2.2) %
        4294967296 /\
    (processBlock s).block = zeroHeadAux 16 0 (expandAux 64 16 s.block) /\
    (processBlock s).offset = 0 := by
  have hb : ∀ j, j < 80 → (expandAux 64 16 s.block).getD j 0 < 2 ^ 32 := by
    intro j hj
    exact expandAux_bounds 64 16 s.block (by omega) (fun j2 hj2 => hw j2 hj2) j (by omega)
  have hre := roundsAux_eq_spec (expandAux 64 16 s.block) 80 0 (s.h0, s.h1, s.h2, s.h3, s.h4)
    hh0 hh1
  refine ⟨?_, ?_, ?_, ?_, ?_, ?_, processBlock_block s, processBlock_offset s⟩
  · intro i h80 h16
    rw [expandAux_recurrence 64 16 s.block (by omega) hlen (by omega) i (by omega) (by omega)]
    rw [show (31 : Nat) = 32 - 1 from rfl]
    rw [rotl_src_eq_spec 1 _ ?hx]
    case hx =>
      apply Nat.xor_lt_two_pow
      apply Nat.xor_lt_two_pow
      apply Nat.xor_lt_two_pow
      · exact hb (i - 3) (by omega)
      · exact hb (i - 8) (by omega)
      · exact hb (i - 14) (by omega)
      · exact hb (i - 16) (by omega)
  · rw [processBlock_h0, hre]
  · rw [processBlock_h1, hre]
  · rw [processBlock_h2, hre]
  · rw [processBlock_h3, hre]
  · rw [processBlock_h4, hre]

set_option maxRecDepth 1000000 in
/-- C3 witness: the round-structure equivalence instantiated on the
initial state, all hypotheses discharged by evaluation. -/
theorem processBlock_follows_sha1_rounds_witness :
    (∀ i, i < 80 → 16 <= i →
      (expandAux 64 16 initial.block).getD i 0 =
        specRotl 1 ((expandAux 64 16 initial.block).getD (i - 3) 0 ^^^
          (expandAux 64 16 initial.block).getD (i - 8) 0 ^^^
          (expandAux 64 16 initial.block).getD (i - 14) 0 ^^^
          (expandAux 64 16 initial.block).getD (i - 16) 0)) /\
    (processBlock initial).h0 =
      (initial.h0 + (specRoundsAux (expandAux 64 16 initial.block) 80 0
        (initial.h0, initial.h1, initial.h2, initial.h3, initial.h4)).1) % 4294967296 /\
    (processBlock initial).h1 =
      (initial.h1 + (specRoundsAux (expandAux 64 16 initial.block) 80 0
        (initial.h0, initial.h1, initial.h2, initial.h3, initial.h4)).2.1) % 4294967296 /\
    (processBlock initial).h2 =
      (initial.h2 + (specRoundsAux (expandAux 64 16 initial.block) 80 0
        (initial.h0, initial.h1, initial.h2, initial.h3, initial.h4)).2.2.1) % 4294967296 /\
    (processBlock initial).h3 =
      (initial.h3 + (specRoundsAux (expandAux 64 16 initial.block) 80 0
        (initial.h0, initial.h1, initial.h2, initial.h3, initial.h4)).2.2.2.1) % 4294967296 /\
    (processBlock initial).h4 =
      (initial.h4 + (specRoundsAux (expandAux 64 16 initial.block) 80 0
        (initial.h0, initial.h1, initial.h2, initial.h3, initial.h4)).2.2.2.2) % 4294967296 /\
    (processBlock initial).block = zeroHeadAux 16 0 (expandAux 64 16 initial.block) /\
    (processBlock initial).offset = 0 :=
  processBlock_follows_sha1_rounds initial (by decide) (by decide) (by decide) (by decide)

/-! ## The 64-bit length field (C5) -/

theorem lor_eq_add (a b k : Nat) (ha : a % 2 ^ k = 0) (hb : b < 2 ^ k) : a ||| b = a + b := by
  obtain ⟨q, hq⟩ := Nat.dvd_of_mod_eq_zero ha
  rw [hq, lor_disjoint_eq_add k q b hb]

theorem word15_assemble (x : Nat) (hx : x < 4294967296) :
    ((((0 ||| ((x >>> 24) &&& 255) <<< 24) ||| ((x >>> 16) &&& 255) <<< 16) |||
      ((x >>> 8) &&& 255) <<< 8) ||| ((x >>> 0) &&& 255) <<< 0) = x := by
  rw [land_255_eq_mod (x >>> 24), land_255_eq_mod (x >>> 16), land_255_eq_mod (x >>> 8),
    land_255_eq_mod (x >>> 0)]
  rw [Nat.zero_or]
  rw [Nat.shiftLeft_eq, Nat.shiftLeft_eq, Nat.shiftLeft_eq, Nat.shiftLeft_eq,
    Nat.shiftRight_eq_div_pow, Nat.shiftRight_eq_div_pow, Nat.shiftRight_eq_div_pow,
    Nat.shiftRight_eq_div_pow]
  rw [lor_eq_add (x / 2 ^ 24 % 256 * 2 ^ 24) (x / 2 ^ 16 % 256 * 2 ^ 16) 24 (by omega) (by omega)]
  rw [lor_eq_add (x / 2 ^ 24 % 256 * 2 ^ 24 + x / 2 ^ 16 % 256 * 2 ^ 16) (x / 2 ^ 8 % 256 * 2 ^ 8) 16
    (by omega) (by omega)]
  rw [lor_eq_add (x / 2 ^ 24 % 256 * 2 ^ 24 + x / 2 ^ 16 % 256 * 2 ^ 16 + x / 2 ^ 8 % 256 * 2 ^ 8)
    (x / 2 ^ 0 % 256 * 2 ^ 0) 8 (by omega) (by omega)]
  omega

theorem word14_value_lt (tl : Nat) (h : tl < 2 ^ 48) :
    (((if 0xffffffffff < tl then tl / 0x10000000000 else 0) &&& 255) <<< 8) |||
      ((if 0xffffffff < tl then tl / 0x100000000 else 0) &&& 255) =
      (tl / 4294967296) % 4294967296 := by
  rw [land_255_eq_mod, land_255_eq_mod, Nat.shiftLeft_eq]
  rw [lor_eq_add _ _ 8 (by omega) (by omega)]
  by_cases h1 : 0xffffffffff < tl
  · rw [if_pos h1]
    by_cases h2 : 0xffffffff < tl
    · rw [if_pos h2]
      omega
    · omega
  · rw [if_neg h1]
    by_cases h2 : 0xffffffff < tl
    · rw [if_pos h2]
      omega
    · rw [if_neg h2]
      omega

theorem padPart_offset (s : EngineState) : (padPart s).offset = 14 := by
  unfold padPart
  dsimp only

theorem padPart_shift (s : EngineState) : (padPart s).shift = 24 := by
  unfold padPart
  dsimp only

theorem force_cursor_totalLength (X : EngineState) :
    ({ X with offset := 14, shift := 24 } : EngineState).totalLength = X.totalLength := rfl

theorem padPart_totalLength (s : EngineState) : (padPart s).totalLength = s.totalLength := by
  unfold padPart
  dsimp only
  split
  · rw [processBlock_totalLength, write_totalLength]
  · rw [write_totalLength]

/-- After padding, words 14 and 15 of the buffer are zero, the buffer
still has its 80-word capacity, and the bit count is unchanged. -/
theorem padPart_facts (s : EngineState) (hI : Inv s) :
    (padPart s).block.getD 14 0 = 0 /\ (padPart s).block.getD 15 0 = 0 /\
    (padPart s).block.length = 80 := by
  have hI1 : Inv (write 0x80 s) := write_inv 0x80 s hI
  by_cases hc : 14 < (write 0x80 s).offset \/
      ((write 0x80 s).offset = 14 /\ (write 0x80 s).shift < 24)
  · have e2 : (padPart s).block = (processBlock (write 0x80 s)).block := by
      rw [padPart_pos _ hc, force_cursor_block]
    rw [e2]
    refine ⟨processBlock_block_zero _ hI1.len80 14 (by omega),
      processBlock_block_zero _ hI1.len80 15 (by omega), ?_⟩
    rw [processBlock_length, hI1.len80]
  · have e2 : (padPart s).block = (write 0x80 s).block := by
      rw [padPart_neg _ hc, force_cursor_block]
    push_neg at hc
    obtain ⟨hc1, hc2⟩ := hc
    rw [e2]
    refine ⟨?_, ?_, hI1.len80⟩
    · by_cases he : (write 0x80 s).offset = 14
      · have hsh : (write 0x80 s).shift = 24 := by
          have := hc2 he
          rcases hI1.shift_mem with hx | hx | hx | hx <;> omega
        have hlo := hI1.cur_lo
        rw [he, hsh] at hlo
        have hlt := hI1.words_lt 14 (by omega)
        rw [show (24 : Nat) + 8 = 32 from rfl] at hlo
        rw [Nat.mod_eq_of_lt hlt] at hlo
        exact hlo
      · exact hI1.tail_zero 14 (by omega) (by omega)
    · exact hI1.tail_zero 15 (by omega) (by omega)
  
theorem write_at_14_24 (b a1 a2 a3 a4 a5 : Nat) (bl : List Nat) (tl bs : Nat) :
    write b ⟨a1, a2, a3, a4, a5, bl, 14, 24, tl, bs⟩ =
      ⟨a1, a2, a3, a4, a5, bl.set 14 (bl.getD 14 0 ||| ((b &&& 0xff) <<< 24)), 14, 16, tl, bs⟩ := by
  rw [write_shift_pos b ⟨a1, a2, a3, a4, a5, bl, 14, 24, tl, bs⟩
    (by show (24 : Nat) ≠ 0; decide) (by show (14 : Nat) ≠ 16; decide)]
  rfl

theorem write_at_14_16 (b a1 a2 a3 a4 a5 : Nat) (bl : List Nat) (tl bs : Nat) :
    write b ⟨a1, a2, a3, a4, a5, bl, 14, 16, tl, bs⟩ =
      ⟨a1, a2, a3, a4, a5, bl.set 14 (bl.getD 14 0 ||| ((b &&& 0xff) <<< 16)), 14, 8, tl, bs⟩ := by
  rw [write_shift_pos b ⟨a1, a2, a3, a4, a5, bl, 14, 16, tl, bs⟩
    (by show (16 : Nat) ≠ 0; decide) (by show (14 : Nat) ≠ 16; decide)]
  rfl

theorem write_at_14_8 (b a1 a2 a3 a4 a5 : Nat) (bl : List Nat) (tl bs : Nat) :
    write b ⟨a1, a2, a3, a4, a5, bl, 14, 8, tl, bs⟩ =
      ⟨a1, a2, a3, a4, a5, bl.set 14 (bl.getD 14 0 ||| ((b &&& 0xff) <<< 8)), 14, 0, tl, bs⟩ := by
  rw [write_shift_pos b ⟨a1, a2, a3, a4, a5, bl, 14, 8, tl, bs⟩
    (by show (8 : Nat) ≠ 0; decide) (by show (14 : Nat) ≠ 16; decide)]
  rfl

theorem write_at_14_0 (b a1 a2 a3 a4 a5 : Nat) (bl : List Nat) (tl bs : Nat) :
    write b ⟨a1, a2, a3, a4, a5, bl, 14, 0, tl, bs⟩ =
      ⟨a1, a2, a3, a4, a5, bl.set 14 (bl.getD 14 0 ||| ((b &&& 0xff) <<< 0)), 15, 24, tl, bs⟩ := by
  rw [write_shift_zero b ⟨a1, a2, a3, a4, a5, bl, 14, 0, tl, bs⟩
    (show (0 : Nat) = 0 from rfl) (by show (14 : Nat) + 1 ≠ 16; decide)]
  rfl

theorem write_at_15_24 (b a1 a2 a3 a4 a5 : Nat) (bl : List Nat) (tl bs : Nat) :
    write b ⟨a1, a2, a3, a4, a5, bl, 15, 24, tl, bs⟩ =
      ⟨a1, a2, a3, a4, a5, bl.set 15 (bl.getD 15 0 ||| ((b &&& 0xff) <<< 24)), 15, 16, tl, bs⟩ := by
  rw [write_shift_pos b ⟨a1, a2, a3, a4, a5, bl, 15, 24, tl, bs⟩
    (by show (24 : Nat) ≠ 0; decide) (by show (15 : Nat) ≠ 16; decide)]
  rfl

theorem write_at_15_16 (b a1 a2 a3 a4 a5 : Nat) (bl : List Nat) (tl bs : Nat) :
    write b ⟨a1, a2, a3, a4, a5, bl, 15, 16, tl, bs⟩ =
      ⟨a1, a2, a3, a4, a5, bl.set 15 (bl.getD 15 0 ||| ((b &&& 0xff) <<< 16)), 15, 8, tl, bs⟩ := by
  rw [write_shift_pos b ⟨a1, a2, a3, a4, a5, bl, 15, 16, tl, bs⟩
    (by show (16 : Nat) ≠ 0; decide) (by show (15 : Nat) ≠ 16; decide)]
  rfl

theorem write_at_15_8 (b a1 a2 a3 a4 a5 : Nat) (bl : List Nat) (tl bs : Nat) :
    write b ⟨a1, a2, a3, a4, a5, bl, 15, 8, tl, bs⟩ =
      ⟨a1, a2, a3, a4, a5, bl.set 15 (bl.getD 15 0 ||| ((b &&& 0xff) <<< 8)), 15, 0, tl, bs⟩ := by
  rw [write_shift_pos b ⟨a1, a2, a3, a4, a5, bl, 15, 8, tl, bs⟩
    (by show (8 : Nat) ≠ 0; decide) (by show (15 : Nat) ≠ 16; decide)]
  rfl

theorem write_at_15_0 (b a1 a2 a3 a4 a5 : Nat) (bl : List Nat) (tl bs : Nat) :
    write b ⟨a1, a2, a3, a4, a5, bl, 15, 0, tl, bs⟩ =
      processBlock ⟨a1, a2, a3, a4, a5, bl.set 15 (bl.getD 15 0 ||| ((b &&& 0xff) <<< 0)), 16, 24, tl, bs⟩ := by
  rw [write_shift_zero_full b ⟨a1, a2, a3, a4, a5, bl, 15, 0, tl, bs⟩
    (show (0 : Nat) = 0 from rfl) (show (15 : Nat) + 1 = 16 from rfl)]
  rfl

/-- The eight length-field writes of `digest()`, started from the forced
cursor position (word 14, shift 24) on a state whose words 14 and 15 are
zero: they pack the four length bytes of each half into words 14 and 15
and the completed word 15 triggers the final block-processing pass. -/
theorem lenWrites_steps (a1 a2 a3 a4 a5 : Nat) (bl : List Nat) (tl bs : Nat)
    (h14 : bl.getD 14 0 = 0) (h15 : bl.getD 15 0 = 0) (hlen : bl.length = 80) :
    lenWrites ⟨a1, a2, a3, a4, a5, bl, 14, 24, tl, bs⟩ =
      processBlock ⟨a1, a2, a3, a4, a5,
        (bl.set 14
          ((((0 ||| ((0x00 &&& 0xff) <<< 24)) ||| ((0x00 &&& 0xff) <<< 16)) |||
              (((if 0xffffffffff < tl then tl / 0x10000000000 else 0) &&& 0xff) <<< 8)) |||
            (((if 0xffffffff < tl then tl / 0x100000000 else 0) &&& 0xff) <<< 0))).set 15
          (tl % 4294967296),
        16, 24, tl, bs⟩ := by
  unfold lenWrites
  dsimp only
  rw [write_at_14_24, h14]
  rw [write_at_14_16, getD_set_self _ _ _ (by rw [hlen]; omega), List.set_set]
  rw [write_at_14_8, getD_set_self _ _ _ (by rw [hlen]; omega), List.set_set]
  rw [write_at_14_0, getD_set_self _ _ _ (by rw [hlen]; omega), List.set_set]
  rw [write_at_15_24, getD_set_ne _ _ _ _ (by omega), h15]
  rw [write_at_15_16, getD_set_self _ _ _ (by rw [List.length_set, hlen]; omega), List.set_set]
  rw [write_at_15_8, getD_set_self _ _ _ (by rw [List.length_set, hlen]; omega), List.set_set]
  rw [write_at_15_0, getD_set_self _ _ _ (by rw [List.length_set, hlen]; omega), List.set_set]
  rw [word15_assemble (tl % 4294967296) (by omega)]

/-- `lenWrites` on any padded state of the engine: the raw word values
packed into words 14 and 15 before the final block pass. -/
theorem lenWrites_padPart (s : EngineState) (hI : Inv s) :
    lenWrites (padPart s) =
      processBlock ⟨(padPart s).h0, (padPart s).h1, (padPart s).h2, (padPart s).h3, (padPart s).h4,
        ((padPart s).block.set 14
          ((((0 ||| ((0x00 &&& 0xff) <<< 24)) ||| ((0x00 &&& 0xff) <<< 16)) |||
              (((if 0xffffffffff < (padPart s).totalLength then
                  (padPart s).totalLength / 0x10000000000 else 0) &&& 0xff) <<< 8)) |||
            (((if 0xffffffff < (padPart s).totalLength then
                (padPart s).totalLength / 0x100000000 else 0) &&& 0xff) <<< 0))).set 15
          ((padPart s).totalLength % 4294967296),
        16, 24, (padPart s).totalLength, (padPart s).blocks⟩ := by
  obtain ⟨h14, h15, hlen⟩ := padPart_facts s hI
  have he : padPart s = ⟨(padPart s).h0, (padPart s).h1, (padPart s).h2, (padPart s).h3,
      (padPart s).h4, (padPart s).block, 14, 24, (padPart s).totalLength, (padPart s).blocks⟩ := by
    rw [engine_eta (padPart s), padPart_offset, padPart_shift]
  have key := lenWrites_steps (padPart s).h0 (padPart s).h1 (padPart s).h2 (padPart s).h3
    (padPart s).h4 (padPart s).block (padPart s).totalLength (padPart s).blocks h14 h15 hlen
  rw [he, key]

/-- C5 (amended): for every input of fewer than `2^45` bytes — so
TotalBitLength below `2^48` — `digest()` writes the 64-bit TotalBitLength
(8 times the number of bytes consumed) as eight big-endian bytes into
words 14 and 15 of the final block, the high-order 32 bits in word 14 and
the low-order 32 bits in word 15, and the completed word 15 triggers the
final block-processing pass.  (For longer inputs the two high-order
length bytes are hard-coded to zero, so the field is clipped.) -/
theorem length_field_big_endian (chunks : List (List Nat))
    (hlt : chunks.flatten.length < 2 ^ 45) :
    (padPart (applyChunks chunks initial)).totalLength = chunks.flatten.length * 8 /\
    lenWrites (padPart (applyChunks chunks initial)) =
      processBlock ⟨(padPart (applyChunks chunks initial)).h0,
        (padPart (applyChunks chunks initial)).h1,
        (padPart (applyChunks chunks initial)).h2,
        (padPart (applyChunks chunks initial)).h3,
        (padPart (applyChunks chunks initial)).h4,
        (((padPart (applyChunks chunks initial)).block.set 14
            (((padPart (applyChunks chunks initial)).totalLength / 4294967296) % 4294967296)).set 15
          ((padPart (applyChunks chunks initial)).totalLength % 4294967296)),
        16, 24, (padPart (applyChunks chunks initial)).totalLength,
        (padPart (applyChunks chunks initial)).blocks⟩ := by
  have hI : Inv (applyChunks chunks initial) := applyChunks_inv chunks initial initial_inv
  have htl : (padPart (applyChunks chunks initial)).totalLength = chunks.flatten.length * 8 := by
    rw [padPart_totalLength, applyChunks_eq_update_flatten, update_totalLength]
    show (0 : Nat) + _ = _
    rw [Nat.zero_add]
  have h48 : (padPart (applyChunks chunks initial)).totalLength < 2 ^ 48 := by
    rw [htl]
    omega
  refine ⟨htl, ?_⟩
  rw [lenWrites_padPart _ hI]
  simp only [Nat.zero_and, Nat.zero_shiftLeft, Nat.zero_or, Nat.or_zero, Nat.shiftLeft_zero]
  rw [word14_value_lt _ h48]

set_option maxRecDepth 1000000 in
/-- C5 witness: the big-endian length-field theorem instantiated on a
one-byte input. -/
theorem length_field_big_endian_witness :
    (padPart (applyChunks [[97]] initial)).totalLength = ([[97]] : List (List Nat)).flatten.length * 8 /\
    lenWrites (padPart (applyChunks [[97]] initial)) =
      processBlock ⟨(padPart (applyChunks [[97]] initial)).h0,
        (padPart (applyChunks [[97]] initial)).h1,
        (padPart (applyChunks [[97]] initial)).h2,
        (padPart (applyChunks [[97]] initial)).h3,
        (padPart (applyChunks [[97]] initial)).h4,
        (((padPart (applyChunks [[97]] initial)).block.set 14
            (((padPart (applyChunks [[97]] initial)).totalLength / 4294967296) % 4294967296)).set 15
          ((padPart (applyChunks [[97]] initial)).totalLength % 4294967296)),
        16, 24, (padPart (applyChunks [[97]] initial)).totalLength,
        (padPart (applyChunks [[97]] initial)).blocks⟩ :=
  length_field_big_endian [[97]] (by decide)

/-- C5 counterexample: on the input of `2^45` zero bytes, TotalBitLength
is `2^48`, whose high-order 32 bits are `65536`; but the value the code
stores in word 14 of the final block is `0` (the two high-order length
bytes are hard-coded to zero and byte 2 is `256 & 0xff = 0`), so the
digest does not write the eight big-endian bytes of the 64-bit
TotalBitLength for this input. -/
theorem length_field_clipped_counterexample :
    (padPart (update (List.replicate (2 ^ 45) 0) initial)).totalLength = 2 ^ 48 /\
    lenWrites (padPart (update (List.replicate (2 ^ 45) 0) initial)) =
      processBlock ⟨(padPart (update (List.replicate (2 ^ 45) 0) initial)).h0,
        (padPart (update (List.replicate (2 ^ 45) 0) initial)).h1,
        (padPart (update (List.replicate (2 ^ 45) 0) initial)).h2,
        (padPart (update (List.replicate (2 ^ 45) 0) initial)).h3,
        (padPart (update (List.replicate (2 ^ 45) 0) initial)).h4,
        (((padPart (update (List.replicate (2 ^ 45) 0) initial)).block.set 14 0).set 15 0),
        16, 24, (padPart (update (List.replicate (2 ^ 45) 0) initial)).totalLength,
        (padPart (update (List.replicate (2 ^ 45) 0) initial)).blocks⟩ /\
    ((2 : Nat) ^ 48 / 4294967296) % 4294967296 = 65536 /\
    (0 : Nat) ≠ 65536 := by
  have hI : Inv (update (List.replicate (2 ^ 45) 0) initial) :=
    update_inv _ initial initial_inv
  have htl : (padPart (update (List.replicate (2 ^ 45) 0) initial)).totalLength = 2 ^ 48 := by
    rw [padPart_totalLength, update_totalLength, List.length_replicate]
    show (0 : Nat) + 2 ^ 45 * 8 = 2 ^ 48
    norm_num
  refine ⟨htl, ?_, by norm_num, by norm_num⟩
  rw [lenWrites_padPart _ hI]
  rw [htl]
  rw [if_pos (show (0xffffffffff : Nat) < 2 ^ 48 by norm_num),
    if_pos (show (0xffffffff : Nat) < 2 ^ 48 by norm_num)]
  norm_num
  rw [show ((256 &&& 255) <<< 8 ||| 65536 &&& 255 : Nat) = 0 from by decide]

/-! ## Scratch-buffer residue independence (C8) -/

/-- Two engine states that agree everywhere except possibly on the scratch
words 16–79 of the block buffer. -/
structure BlockEquiv (s t : EngineState) : Prop where
  eh0 : s.h0 = t.h0
  eh1 : s.h1 = t.h1
  eh2 : s.h2 = t.h2
  eh3 : s.h3 = t.h3
  eh4 : s.h4 = t.h4
  eoff : s.offset = t.offset
  esh : s.shift = t.shift
  etl : s.totalLength = t.totalLength
  ebl : s.blocks = t.blocks
  elen : s.block.length = t.block.length
  edata : ∀ j, j < 16 → s.block.getD j 0 = t.block.getD j 0

theorem getD_ge_len (l : List Nat) (j : Nat) (h : l.length <= j) : l.getD j 0 = 0 := by
  rw [List.getD_eq_getElem?_getD, List.getElem?_eq_none (by omega)]
  rfl

theorem expandAux_congr (n : Nat) :
    ∀ (i : Nat) (bl bl' : List Nat), 1 <= i → bl.length = bl'.length →
      (∀ j, j < i → bl.getD j 0 = bl'.getD j 0) →
      ∀ j, j < i + n → (expandAux n i bl).getD j 0 = (expandAux n i bl').getD j 0 := by
  induction n with
  | zero => intro i bl bl' hi hlen h j hj; exact h j (by omega)
  | succ n ih =>
    intro i bl bl' hi hlen h j hj
    rw [expandAux_succ, expandAux_succ]
    have hw : bl.getD (i - 3) 0 ^^^ bl.getD (i - 8) 0 ^^^ bl.getD (i - 14) 0 ^^^ bl.getD (i - 16) 0 =
        bl'.getD (i - 3) 0 ^^^ bl'.getD (i - 8) 0 ^^^ bl'.getD (i - 14) 0 ^^^ bl'.getD (i - 16) 0 := by
      rw [h (i - 3) (by omega), h (i - 8) (by omega), h (i - 14) (by omega), h (i - 16) (by omega)]
    rw [hw]
    apply ih (i + 1) _ _ (by omega) (by rw [List.length_set, List.length_set, hlen]) ?_ j (by omega)
    intro j2 hj2
    by_cases hji : j2 = i
    · rw [hji]
      by_cases hl : i < bl.length
      · rw [getD_set_self _ _ _ hl, getD_set_self _ _ _ (by omega)]
      · rw [List.set_eq_of_length_le (by omega), List.set_eq_of_length_le (by omega)]
        rw [getD_ge_len _ _ (by omega), getD_ge_len _ _ (by omega)]
    · rw [getD_set_ne _ _ _ _ (by omega), getD_set_ne _ _ _ _ (by omega)]
      exact h j2 (by omega)

theorem roundsAux_congr (blk blk' : List Nat)
    (h : ∀ j, j < 80 → blk.getD j 0 = blk'.getD j 0) :
    ∀ (n i : Nat), i + n <= 80 → ∀ st, roundsAux blk n i st = roundsAux blk' n i st := by
  intro n
  induction n with
  | zero => intro i hle st; rfl
  | succ n ih =>
    intro i hle st
    rw [roundsAux_succ, roundsAux_succ, h i (by omega)]
    exact ih (i + 1) (by omega) _

theorem zeroHead_congr (bl bl' : List Nat) (hlen : bl.length = bl'.length) :
    ∀ j, j < 16 → (zeroHeadAux 16 0 bl).getD j 0 = (zeroHeadAux 16 0 bl').getD j 0 := by
  intro j hj
  by_cases hl : j < bl.length
  · rw [zeroHeadAux_getD_zero 16 0 bl j (by omega) (by omega) hl,
      zeroHeadAux_getD_zero 16 0 bl' j (by omega) (by omega) (by omega)]
  · rw [getD_ge_len _ _ (by rw [zeroHeadAux_length]; omega),
      getD_ge_len _ _ (by rw [zeroHeadAux_length]; omega)]

theorem processBlock_congr (s t : EngineState) (h : BlockEquiv s t) :
    BlockEquiv (processBlock s) (processBlock t) := by
  have hexp : ∀ j, j < 80 →
      (expandAux 64 16 s.block).getD j 0 = (expandAux 64 16 t.block).getD j 0 := by
    intro j hj
    exact expandAux_congr 64 16 s.block t.block (by omega) h.elen
      (fun j2 hj2 => h.edata j2 hj2) j (by omega)
  have hr : roundsAux (expandAux 64 16 s.block) 80 0 (s.h0, s.h1, s.h2, s.h3, s.h4) =
      roundsAux (expandAux 64 16 t.block) 80 0 (t.h0, t.h1, t.h2, t.h3, t.h4) := by
    rw [h.eh0, h.eh1, h.eh2, h.eh3, h.eh4]
    exact roundsAux_congr _ _ hexp 80 0 (by omega) _
  have hexlen : (expandAux 64 16 s.block).length = (expandAux 64 16 t.block).length := by
    rw [expandAux_length, expandAux_length, h.elen]
  refine ⟨?_, ?_, ?_, ?_, ?_, ?_, ?_, ?_, ?_, ?_, ?_⟩
  · rw [processBlock_h0, processBlock_h0, hr, h.eh0]
  · rw [processBlock_h1, processBlock_h1, hr, h.eh1]
  · rw [processBlock_h2, processBlock_h2, hr, h.eh2]
  · rw [processBlock_h3, processBlock_h3, hr, h.eh3]
  · rw [processBlock_h4, processBlock_h4, hr, h.eh4]
  · rw [processBlock_offset, processBlock_offset]
  · rw [processBlock_shift, processBlock_shift, h.esh]
  · rw [processBlock_totalLength, processBlock_totalLength, h.etl]
  · rw [processBlock_blocks, processBlock_blocks, h.ebl]
  · rw [processBlock_length, processBlock_length, h.elen]
  · intro j hj
    rw [processBlock_block, processBlock_block]
    exact zeroHead_congr _ _ hexlen j hj

theorem write_congr (b : Nat) (s t : EngineState) (hI : Inv s) (h : BlockEquiv s t) :
    BlockEquiv (write b s) (write b t) := by
  have hoff : s.offset < s.block.length := by
    have := hI.offset_le
    have := hI.len80
    omega
  have hoff' : t.offset < t.block.length := by
    rw [← h.eoff, ← h.elen]
    exact hoff
  have hval : s.block.getD s.offset 0 ||| ((b &&& 0xff) <<< s.shift) =
      t.block.getD t.offset 0 ||| ((b &&& 0xff) <<< t.shift) := by
    rw [← h.eoff, ← h.esh, h.edata s.offset (by have := hI.offset_le; omega)]
  have hwblock : ∀ j, j < 16 → (wrote b s).getD j 0 = (wrote b t).getD j 0 := by
    intro j hj
    unfold wrote
    rw [← h.eoff, ← h.esh]
    by_cases hjo : s.offset = j
    · rw [← hjo, getD_set_self _ _ _ hoff, getD_set_self _ _ _ (by rw [← h.elen]; exact hoff)]
      rw [h.edata s.offset (by have := hI.offset_le; omega)]
    · rw [getD_set_ne _ _ _ _ hjo, getD_set_ne _ _ _ _ hjo]
      exact h.edata j hj
  have hwlen : (wrote b s).length = (wrote b t).length := by
    rw [wrote_length, wrote_length, h.elen]
  by_cases hsh : s.shift = 0
  · by_cases h2 : s.offset + 1 = 16
    · rw [write_shift_zero_full b s hsh h2,
        write_shift_zero_full b t (by rw [← h.esh]; exact hsh) (by rw [← h.eoff]; exact h2)]
      apply processBlock_congr
      exact ⟨h.eh0, h.eh1, h.eh2, h.eh3, h.eh4, by show s.offset + 1 = t.offset + 1; rw [h.eoff],
        rfl, h.etl, h.ebl, hwlen, hwblock⟩
    · rw [write_shift_zero b s hsh h2,
        write_shift_zero b t (by rw [← h.esh]; exact hsh) (by rw [← h.eoff]; exact h2)]
      exact ⟨h.eh0, h.eh1, h.eh2, h.eh3, h.eh4, by show s.offset + 1 = t.offset + 1; rw [h.eoff],
        rfl, h.etl, h.ebl, hwlen, hwblock⟩
  · by_cases h2 : s.offset = 16
    · rw [write_shift_pos_full b s hsh h2,
        write_shift_pos_full b t (by rw [← h.esh]; exact hsh) (by rw [← h.eoff]; exact h2)]
      apply processBlock_congr
      exact ⟨h.eh0, h.eh1, h.eh2, h.eh3, h.eh4, h.eoff,
        by show s.shift - 8 = t.shift - 8; rw [h.esh], h.etl, h.ebl, hwlen, hwblock⟩
    · rw [write_shift_pos b s hsh h2,
        write_shift_pos b t (by rw [← h.esh]; exact hsh) (by rw [← h.eoff]; exact h2)]
      exact ⟨h.eh0, h.eh1, h.eh2, h.eh3, h.eh4, h.eoff,
        by show s.shift - 8 = t.shift - 8; rw [h.esh], h.etl, h.ebl, hwlen, hwblock⟩

theorem writeList_congr (l : List Nat) (s t : EngineState) (hI : Inv s) (h : BlockEquiv s t) :
    BlockEquiv (writeList l s) (writeList l t) := by
  induction l generalizing s t with
  | nil => exact h
  | cons b l ih =>
    rw [writeList_cons, writeList_cons]
    exact ih (write b s) (write b t) (write_inv b s hI) (write_congr b s t hI h)

theorem setTL_congr (s t : EngineState) (x : Nat) (h : BlockEquiv s t) :
    BlockEquiv (setTL s x) (setTL t x) :=
  ⟨h.eh0, h.eh1, h.eh2, h.eh3, h.eh4, h.eoff, h.esh, rfl, h.ebl, h.elen, h.edata⟩

theorem update_congr (l : List Nat) (s t : EngineState) (hI : Inv s) (h : BlockEquiv s t) :
    BlockEquiv (update l s) (update l t) := by
  rw [update_eq_writeList, update_eq_writeList, h.etl]
  exact writeList_congr l _ _ (setTL_inv s _ hI) (setTL_congr s t _ h)

theorem applyChunks_congr (chunks : List (List Nat)) (s t : EngineState) (hI : Inv s)
    (h : BlockEquiv s t) :
    BlockEquiv (applyChunks chunks s) (applyChunks chunks t) := by
  rw [applyChunks_eq_update_flatten, applyChunks_eq_update_flatten]
  exact update_congr _ s t hI h

theorem force_cursor_h0 (X : EngineState) :
    ({ X with offset := 14, shift := 24 } : EngineState).h0 = X.h0 := rfl

theorem force_cursor_h1 (X : EngineState) :
    ({ X with offset := 14, shift := 24 } : EngineState).h1 = X.h1 := rfl

theorem force_cursor_h2 (X : EngineState) :
    ({ X with offset := 14, shift := 24 } : EngineState).h2 = X.h2 := rfl

theorem force_cursor_h3 (X : EngineState) :
    ({ X with offset := 14, shift := 24 } : EngineState).h3 = X.h3 := rfl

theorem force_cursor_h4 (X : EngineState) :
    ({ X with offset := 14, shift := 24 } : EngineState).h4 = X.h4 := rfl

theorem force_cursor_offset (X : EngineState) :
    ({ X with offset := 14, shift := 24 } : EngineState).offset = 14 := rfl

theorem force_cursor_shift (X : EngineState) :
    ({ X with offset := 14, shift := 24 } : EngineState).shift = 24 := rfl

theorem getD_setset_15 (l : List Nat) (v14 v15 : Nat) (h : l.length = 80) :
    ((l.set 14 v14).set 15 v15).getD 15 0 = v15 := by
  apply getD_set_self
  rw [List.length_set, h]
  omega

theorem getD_setset_14 (l : List Nat) (v14 v15 : Nat) (h : l.length = 80) :
    ((l.set 14 v14).set 15 v15).getD 14 0 = v14 := by
  rw [getD_set_ne _ _ _ _ (by omega)]
  apply getD_set_self
  rw [h]
  omega

theorem getD_setset_ne (l : List Nat) (v14 v15 j : Nat) (h14 : j ≠ 14) (h15 : j ≠ 15) :
    ((l.set 14 v14).set 15 v15).getD j 0 = l.getD j 0 := by
  rw [getD_set_ne _ _ _ _ (by omega), getD_set_ne _ _ _ _ (by omega)]

theorem blockEquiv_force_cursor (X Y : EngineState) (h : BlockEquiv X Y) :
    BlockEquiv ({ X with offset := 14, shift := 24 } : EngineState)
      ({ Y with offset := 14, shift := 24 } : EngineState) := by
  refine ⟨?_, ?_, ?_, ?_, ?_, ?_, ?_, ?_, ?_, ?_, ?_⟩
  · rw [force_cursor_h0, force_cursor_h0]; exact h.eh0
  · rw [force_cursor_h1, force_cursor_h1]; exact h.eh1
  · rw [force_cursor_h2, force_cursor_h2]; exact h.eh2
  · rw [force_cursor_h3, force_cursor_h3]; exact h.eh3
  · rw [force_cursor_h4, force_cursor_h4]; exact h.eh4
  · rfl
  · rfl
  · rw [force_cursor_totalLength, force_cursor_totalLength]; exact h.etl
  · show X.blocks = Y.blocks
    exact h.ebl
  · rw [force_cursor_block, force_cursor_block]; exact h.elen
  · intro j hj
    rw [force_cursor_block, force_cursor_block]
    exact h.edata j hj

theorem padPart_congr (s t : EngineState) (hIs : Inv s) (h : BlockEquiv s t) :
    BlockEquiv (padPart s) (padPart t) := by
  have h1 := write_congr 0x80 s t hIs h
  by_cases hc : 14 < (write 0x80 s).offset \/
      ((write 0x80 s).offset = 14 /\ (write 0x80 s).shift < 24)
  · have hct : 14 < (write 0x80 t).offset \/
        ((write 0x80 t).offset = 14 /\ (write 0x80 t).shift < 24) := by
      rw [← h1.eoff, ← h1.esh]
      exact hc
    rw [padPart_pos s hc, padPart_pos t hct]
    exact blockEquiv_force_cursor _ _ (processBlock_congr _ _ h1)
  · have hct : ¬(14 < (write 0x80 t).offset \/
        ((write 0x80 t).offset = 14 /\ (write 0x80 t).shift < 24)) := by
      rw [← h1.eoff, ← h1.esh]
      exact hc
    rw [padPart_neg s hc, padPart_neg t hct]
    exact blockEquiv_force_cursor _ _ h1

theorem initial_block_getD (j : Nat) (hj : j < 80) : initial.block.getD j 0 = 0 := by
  show (List.replicate 80 0).getD j 0 = 0
  rw [List.getD_eq_getElem?_getD, List.getElem?_replicate, if_pos hj]
  rfl

/-- C8: determinism across instances and absence of state leakage: for any
residue left in the scratch words 16–79 of the shared buffer (words 0–15
zeroed, as a completed session leaves them), a fresh session computes the
same digest as one on a brand-new zeroed buffer; and a completed `digest()`
leaves words 0–15 of the buffer zeroed, so a completed session leaves no
state that alters a subsequent independent session.  (Two separately
constructed engines fed the same input are the same pure function
application, so their digests coincide definitionally.) -/
theorem digest_unaffected_by_scratch_residue (junk : List Nat) (hj : junk.length = 64)
    (chunks : List (List Nat)) :
    digestOutput (applyChunks chunks { initial with block := List.replicate 16 0 ++ junk }) =
      digestOutput (applyChunks chunks initial) /\
    (∀ j, j < 16 → (digestState (applyChunks chunks initial)).block.getD j 0 = 0) := by
  have hjd : ∀ j, j < 16 → (List.replicate 16 0 ++ junk).getD j 0 = 0 := by
    intro j hjx
    rw [List.getD_eq_getElem?_getD,
      List.getElem?_append_left (by rw [List.length_replicate]; omega),
      List.getElem?_replicate, if_pos hjx]
    rfl
  have hIj : Inv { initial with block := List.replicate 16 0 ++ junk } := by
    refine ⟨?_, ?_, ?_, ?_, ?_, ?_⟩
    · show (0 : Nat) <= 15
      omega
    · show (24 : Nat) = 24 \/ (24 : Nat) = 16 \/ (24 : Nat) = 8 \/ (24 : Nat) = 0
      left
      rfl
    · show (List.replicate 16 0 ++ junk).length = 80
      rw [List.length_append, List.length_replicate, hj]
    · intro j h1 h2
      exact hjd j h2
    · show (List.replicate 16 0 ++ junk).getD 0 0 % 2 ^ (24 + 8) = 0
      rw [hjd 0 (by omega)]
      rfl
    · intro j hjx
      show (List.replicate 16 0 ++ junk).getD j 0 < 2 ^ 32
      rw [hjd j hjx]
      exact Nat.two_pow_pos 32
  have hBE : BlockEquiv { initial with block := List.replicate 16 0 ++ junk } initial := by
    refine ⟨rfl, rfl, rfl, rfl, rfl, rfl, rfl, rfl, rfl, ?_, ?_⟩
    · show (List.replicate 16 0 ++ junk).length = (List.replicate 80 0).length
      rw [List.length_append, List.length_replicate, List.length_replicate, hj]
    · intro j hjx
      rw [hjd j hjx, initial_block_getD j (by omega)]
  have hIs := applyChunks_inv chunks _ hIj
  have hIt := applyChunks_inv chunks initial initial_inv
  have hBE2 := applyChunks_congr chunks _ _ hIj hBE
  have hP := padPart_congr _ _ hIs hBE2
  have hA := lenWrites_padPart (applyChunks chunks { initial with block := List.replicate 16 0 ++ junk }) hIs
  have hB := lenWrites_padPart (applyChunks chunks initial) hIt
  have hflen : (padPart (applyChunks chunks { initial with block := List.replicate 16 0 ++ junk })).block.length = 80 :=
    (padPart_facts _ hIs).2.2
  have hflen' : (padPart (applyChunks chunks initial)).block.length = 80 :=
    (padPart_facts _ hIt).2.2
  have hPB : BlockEquiv
      (⟨(padPart (applyChunks chunks { initial with block := List.replicate 16 0 ++ junk })).h0,
        (padPart (applyChunks chunks { initial with block := List.replicate 16 0 ++ junk })).h1,
        (padPart (applyChunks chunks { initial with block := List.replicate 16 0 ++ junk })).h2,
        (padPart (applyChunks chunks { initial with block := List.replicate 16 0 ++ junk })).h3,
        (padPart (applyChunks chunks { initial with block := List.replicate 16 0 ++ junk })).h4,
        ((padPart (applyChunks chunks { initial with block := List.replicate 16 0 ++ junk })).block.set 14
          ((((0 ||| ((0x00 &&& 0xff) <<< 24)) ||| ((0x00 &&& 0xff) <<< 16)) |||
              (((if 0xffffffffff < (padPart (applyChunks chunks { initial with block := List.replicate 16 0 ++ junk })).totalLength then
                  (padPart (applyChunks chunks { initial with block := List.replicate 16 0 ++ junk })).totalLength / 0x10000000000 else 0) &&& 0xff) <<< 8)) |||
            (((if 0xffffffff < (padPart (applyChunks chunks { initial with block := List.replicate 16 0 ++ junk })).totalLength then
                (padPart (applyChunks chunks { initial with block := List.replicate 16 0 ++ junk })).totalLength / 0x100000000 else 0) &&& 0xff) <<< 0))).set 15
          ((padPart (applyChunks chunks { initial with block := List.replicate 16 0 ++ junk })).totalLength % 4294967296),
        16, 24, (padPart (applyChunks chunks { initial with block := List.replicate 16 0 ++ junk })).totalLength,
        (padPart (applyChunks chunks { initial with block := List.replicate 16 0 ++ junk })).blocks⟩ : EngineState)
      (⟨(padPart (applyChunks chunks initial)).h0,
        (padPart (applyChunks chunks initial)).h1,
        (padPart (applyChunks chunks initial)).h2,
        (padPart (applyChunks chunks initial)).h3,
        (padPart (applyChunks chunks initial)).h4,
        ((padPart (applyChunks chunks initial)).block.set 14
          ((((0 ||| ((0x00 &&& 0xff) <<< 24)) ||| ((0x00 &&& 0xff) <<< 16)) |||
              (((if 0xffffffffff < (padPart (applyChunks chunks initial)).totalLength then
                  (padPart (applyChunks chunks initial)).totalLength / 0x10000000000 else 0) &&& 0xff) <<< 8)) |||
            (((if 0xffffffff < (padPart (applyChunks chunks initial)).totalLength then
                (padPart (applyChunks chunks initial)).totalLength / 0x100000000 else 0) &&& 0xff) <<< 0))).set 15
          ((padPart (applyChunks chunks initial)).totalLength % 4294967296),
        16, 24, (padPart (applyChunks chunks initial)).totalLength,
        (padPart (applyChunks chunks initial)).blocks⟩ : EngineState) := by
    refine ⟨hP.eh0, hP.eh1, hP.eh2, hP.eh3, hP.eh4, rfl, rfl, hP.etl, hP.ebl, ?_, ?_⟩
    · rw [List.length_set, List.length_set, List.length_set, List.length_set, hP.elen]
    · intro j hjx
      by_cases h15x : j = 15
      · rw [h15x, getD_setset_15 _ _ _ hflen, getD_setset_15 _ _ _ hflen', hP.etl]
      · by_cases h14x : j = 14
        · rw [h14x, getD_setset_14 _ _ _ hflen, getD_setset_14 _ _ _ hflen', hP.etl]
        · rw [getD_setset_ne _ _ _ _ h14x h15x, getD_setset_ne _ _ _ _ h14x h15x]
          exact hP.edata j hjx
  have hfinal := processBlock_congr _ _ hPB
  constructor
  · show digestOutput _ = digestOutput _
    unfold digestOutput digestState
    dsimp only
    rw [hA, hB]
    rw [hfinal.eh0, hfinal.eh1, hfinal.eh2, hfinal.eh3, hfinal.eh4]
  · intro j hjx
    show (lenWrites (padPart (applyChunks chunks initial))).block.getD j 0 = 0
    rw [hB]
    exact processBlock_block_zero _
      (by rw [List.length_set, List.length_set, hflen']) j hjx

set_option maxRecDepth 1000000 in
/-- C8 witness: scratch-residue independence evaluated at a concrete
64-word residue and a concrete three-byte input. -/
theorem digest_unaffected_by_scratch_residue_witness :
    digestOutput (applyChunks [[1, 2, 3]] { initial with block := List.replicate 16 0 ++ List.replicate 64 7 }) =
      digestOutput (applyChunks [[1, 2, 3]] initial) /\
    (∀ j, j < 16 → (digestState (applyChunks [[1, 2, 3]] initial)).block.getD j 0 = 0) :=
  digest_unaffected_by_scratch_residue (List.replicate 64 7) (by decide) [[1, 2, 3]]

end GitSha1
